import Mathlib

/-!
Shallow embedding of `process_manga.py` (manga_cleaner repository).

Strings are modelled as Lean `String` / `List Char`; paths as plain strings
joined with `"/"`.  The filesystem is modelled where needed as an explicit
finite list of existing paths (with contents, where contents matter).
Python text processing (`re` patterns, `str.strip`, `str.lower`,
`pathlib.Path.stem/.suffix`) is translated for ASCII text, which is the
character range the regexes in the source are written for.
-/

set_option maxHeartbeats 1000000
set_option maxRecDepth 10000

namespace MangaCleaner

/-- ASCII whitespace, as matched by Python's `\s` and stripped by `str.strip`. -/
def isSpaceChar (c : Char) : Bool :=
  c == ' ' || c == '\t' || c == '\n' || c == '\r' || c == '\x0b' || c == '\x0c'

/-- ASCII word character, as matched by Python's `\w` (used for `\b` boundaries). -/
def isWordChar (c : Char) : Bool :=
  c.isAlphanum || c == '_'

/-- `str.strip()`: drop ASCII whitespace from both ends. -/
def stripChars (l : List Char) : List Char :=
  ((l.dropWhile isSpaceChar).reverse.dropWhile isSpaceChar).reverse

/-- Value of a run of ASCII digits read most-significant first (Python `int(...)`). -/
def digitsVal (l : List Char) : Nat :=
  l.foldl (fun a c => 10 * a + (c.toNat - 48)) 0

/-- The ASCII digit character for `d < 10`. -/
def digitChar (d : Nat) : Char := Char.ofNat (48 + d)

/-- Decimal digits of `n`, least significant first (`[]` for `0`). -/
def natDigitsLE : Nat → List Nat
  | 0 => []
  | n + 1 => ((n + 1) % 10) :: natDigitsLE ((n + 1) / 10)
decreasing_by exact Nat.div_lt_self (Nat.succ_pos n) (by decide)

/-- Decimal rendering of a natural number, as Python's `str(i)` / f-string. -/
def natToStr (n : Nat) : String :=
  if n = 0 then "0" else String.mk (((natDigitsLE n).map digitChar).reverse)

/-- Little-endian digit list evaluation (inverse of `natDigitsLE`). -/
def ofDigitsLE : List Nat → Nat
  | [] => 0
  | d :: ds => d + 10 * ofDigitsLE ds

lemma ofDigitsLE_natDigitsLE : ∀ n, ofDigitsLE (natDigitsLE n) = n := by
  intro n
  induction n using Nat.strong_induction_on with
  | _ n ih =>
    match n with
    | 0 => simp [natDigitsLE, ofDigitsLE]
    | m + 1 =>
      rw [natDigitsLE, ofDigitsLE,
        ih ((m + 1) / 10) (Nat.div_lt_self (Nat.succ_pos m) (by decide))]
      exact Nat.mod_add_div (m + 1) 10

lemma natDigitsLE_lt_ten : ∀ n, ∀ d ∈ natDigitsLE n, d < 10 := by
  intro n
  induction n using Nat.strong_induction_on with
  | _ n ih =>
    match n with
    | 0 => simp [natDigitsLE]
    | m + 1 =>
      rw [natDigitsLE]
      intro d hd
      rcases List.mem_cons.mp hd with h | h
      · subst h; exact Nat.mod_lt _ (by decide)
      · exact ih ((m + 1) / 10) (Nat.div_lt_self (Nat.succ_pos m) (by decide)) d h

lemma digitChar_toNat {d : Nat} (h : d < 10) : (digitChar d).toNat = 48 + d := by
  revert h
  revert d
  decide

lemma foldl_digits_reverse (ds : List Nat) (h : ∀ d ∈ ds, d < 10) (a : Nat) :
    List.foldl (fun a c => 10 * a + (c.toNat - 48)) a ((ds.map digitChar).reverse)
      = a * 10 ^ ds.length + ofDigitsLE ds := by
  induction ds generalizing a with
  | nil => simp [ofDigitsLE]
  | cons d ds ih =>
    have hd : d < 10 := h d (List.mem_cons_self d ds)
    have hds : ∀ x ∈ ds, x < 10 := fun x hx => h x (List.mem_cons_of_mem d hx)
    simp only [List.map_cons, List.reverse_cons, List.foldl_append, List.foldl_cons,
      List.foldl_nil, ih hds, ofDigitsLE, List.length_cons]
    rw [digitChar_toNat hd]
    ring_nf
    omega

lemma digitsVal_natToStr (n : Nat) : digitsVal (natToStr n).data = n := by
  by_cases h : n = 0
  · subst h; decide
  · unfold natToStr digitsVal
    rw [if_neg h]
    show List.foldl _ 0 (((natDigitsLE n).map digitChar).reverse) = n
    rw [foldl_digits_reverse (natDigitsLE n) (natDigitsLE_lt_ten n) 0,
      ofDigitsLE_natDigitsLE]
    simp

lemma natToStr_injective : Function.Injective natToStr := by
  intro m n h
  have := congrArg (fun s => digitsVal s.data) h
  simpa [digitsVal_natToStr] using this

/-!
### `Path.stem` / `Path.suffix`

Python: `i = name.rfind('.')`; if `0 < i < len(name) - 1` the suffix is
`name[i:]` and the stem `name[:i]`; otherwise suffix `""`, stem the whole name.
-/

/-- Split a filename at its last dot: `some (before, fromDotInclusive)`. -/
def splitExtAux : List Char → Option (List Char × List Char)
  | [] => none
  | c :: cs =>
    match splitExtAux cs with
    | some (st, ex) => some (c :: st, ex)
    | none => if c == '.' then some ([], c :: cs) else none

/-- `(stem, suffix)` of a filename, with Python's validity guard
(`0 < i < len(name) - 1`, i.e. nonempty stem and at least one char after the dot). -/
def pathSplitName (name : List Char) : List Char × List Char :=
  match splitExtAux name with
  | some (st, ex) => if 0 < st.length ∧ 2 ≤ ex.length then (st, ex) else (name, [])
  | none => (name, [])

def pathSuffix (s : String) : String := String.mk (pathSplitName s.data).2

def pathStem (s : String) : String := String.mk (pathSplitName s.data).1

/-!
### Natural sort key (`natural_key_name`)

`re.split(r"(\d+)", name.lower())` produces an alternating list of
(possibly empty) non-digit strings and digit runs, beginning and ending with
a string; digit runs are interpreted as integers.  Keys are compared as
Python compares these tuples: position-wise, strings lexicographically by
code point, integers numerically, a strict prefix sorting first.  Elements at
equal positions always have the same kind (string at even positions, integer
at odd), so the cross-kind case of the order is never exercised; the
`Sum.Lex` order supplies an arbitrary total choice for it.
-/

abbrev KeyElem := Lex (List Nat ⊕ Nat)

/-- A textual key element: Python compares strings by code point, which is the
lexicographic order on the list of code points. -/
def keStr (s : List Char) : KeyElem := toLex (Sum.inl (s.map Char.toNat))

def keNum (n : Nat) : KeyElem := toLex (Sum.inr n)

/-- Core of `re.split(r"(\d+)", s)` plus digit-run evaluation: `acc` holds the
reversed pending non-digit run. -/
def natKeyAux (acc : List Char) : List Char → List KeyElem
  | [] => [keStr acc.reverse]
  | c :: cs =>
    if c.isDigit then
      let ds := c :: cs.takeWhile Char.isDigit
      let rest := cs.dropWhile Char.isDigit
      keStr acc.reverse :: keNum (digitsVal ds) :: natKeyAux [] rest
    else natKeyAux (c :: acc) cs
termination_by l => l.length
decreasing_by
  · have := (List.dropWhile_sublist (l := cs) Char.isDigit).length_le
    simp only [List.length_cons]
    omega
  · simp only [List.length_cons]
    omega

/-- `natural_key_name(name)`: split `name.lower()` into alternating text /
number runs. -/
def natural_key_name (s : String) : List KeyElem :=
  natKeyAux [] (s.data.map Char.toLower)

/-- Boolean "key of `a` ≤ key of `b`" used to sort names naturally. -/
def natKeyLe (a b : String) : Bool :=
  decide (natural_key_name a ≤ natural_key_name b)

/-!
### Volume scanning (`scan_volumes`, `is_hidden_or_macos_junk`)
-/

def VOLUME_EXTS : List String := [".cbz", ".cbr", ".cb7", ".zip"]

def IMAGE_EXTS : List String := [".jpg", ".jpeg", ".png", ".webp"]

def COVER_CANDIDATES : List String :=
  ["cover.jpg", "cover.jpeg", "cover.png", "poster.jpg", "poster.png", "cover_old.jpg"]

/-- `str.lower()` (ASCII). -/
def lowerStr (s : String) : String := String.mk (s.data.map Char.toLower)

/-- `str.startswith(p)`. -/
def startsWithStr (s p : String) : Bool := p.data.isPrefixOf s.data

def is_hidden_or_macos_junk (name : String) : Bool :=
  startsWithStr name "." || startsWithStr name "._"

/-- A directory entry: a name together with whether it is a regular file. -/
structure Entry where
  name : String
  isFile : Bool
deriving DecidableEq

/-- The filter applied by `scan_volumes` to each directory entry. -/
def isVolumeEntry (e : Entry) : Bool :=
  e.isFile && !is_hidden_or_macos_junk e.name
    && VOLUME_EXTS.contains (lowerStr (pathSuffix e.name))

/-- `scan_volumes(series_dir)`: eligible entries, naturally sorted by name
(the result holds the file names; callers join them onto the directory). -/
def scan_volumes (entries : List Entry) : List String :=
  ((entries.filter isVolumeEntry).map Entry.name).mergeSort natKeyLe

lemma natKeyLe_trans (a b c : String) (h1 : natKeyLe a b) (h2 : natKeyLe b c) :
    natKeyLe a c := by
  simp only [natKeyLe, decide_eq_true_eq] at *
  exact le_trans h1 h2

lemma natKeyLe_total (a b : String) : natKeyLe a b || natKeyLe b a := by
  simp only [natKeyLe]
  rcases le_total (natural_key_name a) (natural_key_name b) with h | h <;> simp [h]

lemma scan_volumes_perm (entries : List Entry) :
    (scan_volumes entries).Perm ((entries.filter isVolumeEntry).map Entry.name) :=
  List.mergeSort_perm _ _

lemma scan_volumes_sorted (entries : List Entry) :
    (scan_volumes entries).Pairwise (fun a b => natKeyLe a b) := by
  have := List.sorted_mergeSort natKeyLe_trans natKeyLe_total
    ((entries.filter isVolumeEntry).map Entry.name)
  simpa [scan_volumes] using this

/-!
### Filename cleaning (`clean_volume_filename`)

The three `re.sub`/`re.search` passes are translated as left-to-right scans,
matching the semantics of Python's regex engine on the patterns used:
1. `re.sub(r"\s*\([^)]*\)", "", stem)`
2. `re.sub(r"\s{2,}", " ", stem).strip()`
3. `re.sub(r"(v\s*\d+)(?:_\d+)+", r"\1", stem, flags=re.IGNORECASE)`
4. `re.search(r"\bv\s*0*(\d+)", stem, flags=re.IGNORECASE)`
-/

/-- Try to match `\s*\([^)]*\)` at the head of `l`; on success return the
remainder after the closing parenthesis. -/
def parenMatch (l : List Char) : Option (List Char) :=
  match l.dropWhile isSpaceChar with
  | '(' :: r2 =>
    match r2.dropWhile (fun c => c != ')') with
    | _ :: r4 => some r4
    | [] => none
  | _ => none

lemma parenMatch_length {l r : List Char} (h : parenMatch l = some r) :
    r.length < l.length := by
  unfold parenMatch at h
  split at h
  case _ r2 heq =>
    have h2 : r2.length + 1 ≤ l.length := by
      have := (List.dropWhile_sublist (l := l) isSpaceChar).length_le
      rw [heq] at this
      simpa using this
    split at h
    case _ c r4 heq2 =>
      have h4 : r4.length + 1 ≤ r2.length := by
        have := (List.dropWhile_sublist (l := r2) (fun c => c != ')')).length_le
        rw [heq2] at this
        simpa using this
      cases h
      omega
    case _ => exact absurd h (by simp)
  case _ => exact absurd h (by simp)

/-- Global substitution `re.sub(r"\s*\([^)]*\)", "", ·)`. -/
def sub1 : List Char → List Char
  | [] => []
  | c :: cs =>
    match h : parenMatch (c :: cs) with
    | some rest => sub1 rest
    | none => c :: sub1 cs
termination_by l => l.length
decreasing_by
  · exact parenMatch_length h
  · simp only [List.length_cons]; omega

/-- Global substitution `re.sub(r"\s{2,}", " ", ·)`: each run of two or more
whitespace characters becomes a single space. -/
def sub2 : List Char → List Char
  | [] => []
  | [c] => [c]
  | c1 :: c2 :: cs =>
    if isSpaceChar c1 && isSpaceChar c2 then
      ' ' :: sub2 (cs.dropWhile isSpaceChar)
    else c1 :: sub2 (c2 :: cs)
termination_by l => l.length
decreasing_by
  · have := (List.dropWhile_sublist (l := cs) isSpaceChar).length_le
    simp only [List.length_cons]
    omega
  · simp only [List.length_cons]; omega

/-- One-or-more repetitions of `_\d+` (greedy); returns the remainder after
the last repetition.  (`_\d+` matches iff the list starts with `'_'` followed
by at least one digit.) -/
def underscoreGroups : List Char → Option (List Char)
  | '_' :: c :: cs =>
    if c.isDigit then
      match underscoreGroups (cs.dropWhile Char.isDigit) with
      | some r2 => some r2
      | none => some (cs.dropWhile Char.isDigit)
    else none
  | _ => none
termination_by l => l.length
decreasing_by
  have := (List.dropWhile_sublist (l := cs) Char.isDigit).length_le
  simp only [List.length_cons]
  omega

lemma underscoreGroups_length :
    ∀ (l r : List Char), underscoreGroups l = some r → r.length < l.length := by
  intro l
  induction l using underscoreGroups.induct with
  | case1 c cs hc r2 heq ih =>
    intro r h
    rw [underscoreGroups, if_pos hc, heq] at h
    cases h
    have h1 := ih r2 heq
    have h2 := (List.dropWhile_sublist (l := cs) Char.isDigit).length_le
    simp only [List.length_cons]
    omega
  | case2 c cs hc heq =>
    intro r h
    rw [underscoreGroups, if_pos hc, heq] at h
    cases h
    have h2 := (List.dropWhile_sublist (l := cs) Char.isDigit).length_le
    simp only [List.length_cons]
    omega
  | case3 c cs hc =>
    intro r h
    rw [underscoreGroups, if_neg hc] at h
    exact absurd h (by simp)
  | case4 l hl =>
    intro r h
    rw [underscoreGroups.eq_def] at h
    split at h
    · exact absurd rfl (hl _ _)
    · exact absurd h (by simp)

/-- Try to match `(v\s*\d+)(?:_\d+)+` at the head of `l` (case-insensitive on
the `v`); on success return the kept first group and the remainder. -/
def volUnderscoreMatch (l : List Char) : Option (List Char × List Char) :=
  match l with
  | c :: cs =>
    if c == 'v' || c == 'V' then
      let ws := cs.takeWhile isSpaceChar
      let r1 := cs.dropWhile isSpaceChar
      let ds := r1.takeWhile Char.isDigit
      if ds.isEmpty then none
      else
        match underscoreGroups (r1.dropWhile Char.isDigit) with
        | some r3 => some (c :: (ws ++ ds), r3)
        | none => none
    else none
  | [] => none

lemma volUnderscoreMatch_length {l : List Char} {k r : List Char}
    (h : volUnderscoreMatch l = some (k, r)) : r.length < l.length := by
  match l with
  | [] => exact absurd h (by simp [volUnderscoreMatch])
  | c :: cs =>
    rw [volUnderscoreMatch] at h
    by_cases hv : (c == 'v' || c == 'V') = true
    · rw [if_pos hv] at h
      simp only at h
      by_cases hds : ((cs.dropWhile isSpaceChar).takeWhile Char.isDigit).isEmpty = true
      · rw [if_pos hds] at h; exact absurd h (by simp)
      · rw [if_neg hds] at h
        split at h
        case _ r3 heq =>
          cases h
          have h1 := underscoreGroups_length _ _ heq
          have h2 := (List.dropWhile_sublist (l := cs.dropWhile isSpaceChar)
            Char.isDigit).length_le
          have h3 := (List.dropWhile_sublist (l := cs) isSpaceChar).length_le
          simp only [List.length_cons]
          omega
        case _ => exact absurd h (by simp)
    · rw [if_neg hv] at h; exact absurd h (by simp)

/-- Global substitution `re.sub(r"(v\s*\d+)(?:_\d+)+", r"\1", ·)`. -/
def sub3 : List Char → List Char
  | [] => []
  | c :: cs =>
    match h : volUnderscoreMatch (c :: cs) with
    | some (kept, rest) => kept ++ sub3 rest
    | none => c :: sub3 cs
termination_by l => l.length
decreasing_by
  · exact volUnderscoreMatch_length h
  · simp only [List.length_cons]; omega

/-- Is the position after `prev` a `\b` boundary for a following word
character?  (`prev = none` is the start of the string.) -/
def boundaryOk : Option Char → Bool
  | none => true
  | some p => !isWordChar p

/-- Leftmost match of `\bv\s*0*(\d+)` (case-insensitive): returns the text
before the match, the integer value of the digit run, and the remainder after
it.  `int` of the captured group equals the value of the whole digit run,
since `0*` only strips leading zeros. -/
def findVolMarkerAux (acc : List Char) (prev : Option Char) :
    List Char → Option (List Char × Nat × List Char)
  | [] => none
  | c :: cs =>
    if (c == 'v' || c == 'V') && boundaryOk prev then
      let r1 := cs.dropWhile isSpaceChar
      let ds := r1.takeWhile Char.isDigit
      if ds.isEmpty then findVolMarkerAux (c :: acc) (some c) cs
      else some (acc.reverse, digitsVal ds, r1.dropWhile Char.isDigit)
    else findVolMarkerAux (c :: acc) (some c) cs

/-- `f"{n:03d}"`. -/
def zeroPad3 (n : Nat) : String :=
  let s := natToStr n
  if s.length < 3 then String.mk (List.replicate (3 - s.length) '0' ++ s.data) else s

/-- `clean_volume_filename(src_name, pad_to_3)`. -/
def clean_volume_filename (srcName : String) (padTo3 : Bool) : String :=
  let stemExt := pathSplitName srcName.data
  let ext := String.mk stemExt.2
  let s1 := sub1 stemExt.1
  let s2 := stripChars (sub2 s1)
  let s3 := sub3 s2
  match findVolMarkerAux [] none s3 with
  | some (pre, volNum, _) =>
    let title := stripChars (sub2 (stripChars pre))
    let vpart := if padTo3 then "v" ++ zeroPad3 volNum else "v" ++ natToStr volNum
    if title.isEmpty then vpart ++ ext
    else String.mk title ++ " " ++ vpart ++ ext
  | none => String.mk s3 ++ ext

unseal natDigitsLE natKeyAux sub1 sub2 sub3 underscoreGroups List.merge List.mergeSort

example : clean_volume_filename "Series v7.cbz" true = "Series v007.cbz" := by decide

example : clean_volume_filename "Series v071_1_1.cbz" true = "Series v071.cbz" := by decide

example : clean_volume_filename "Naruto v01 (2003) (Digital).cbz" true = "Naruto v001.cbz" := by
  decide

/-!
### Paths and the filesystem existence model

A path is a plain string; `Path / name` is string concatenation with `"/"`.
Existence checks (`candidate.exists()`) consult an explicit finite list of
existing paths -- a real directory tree is finite, which is what makes the
`while True` counter searches in the source terminate.
-/

def pathJoin (d n : String) : String := d ++ "/" ++ n

def existsPath (fs : List String) (p : String) : Bool := fs.contains p

lemma pathJoin_right_injective (d : String) :
    Function.Injective (fun n => pathJoin d n) := by
  intro a b h
  simp only [pathJoin] at h
  have hd := congrArg String.data h
  simp only [String.data_append, List.append_assoc] at hd
  exact String.ext (List.append_cancel_left (List.append_cancel_left hd))

/-- Candidate collision name `f"{stem} ({i}){ext}"`. -/
def suffixedName (stem ext : String) (i : Nat) : String :=
  stem ++ " (" ++ natToStr i ++ ")" ++ ext

lemma suffixedName_injective (stem ext : String) :
    Function.Injective (suffixedName stem ext) := by
  intro a b h
  simp only [suffixedName] at h
  have hd := congrArg String.data h
  simp only [String.data_append, List.append_assoc] at hd
  have h1 := List.append_cancel_left (List.append_cancel_left hd)
  exact natToStr_injective (String.ext (List.append_cancel_right h1))

/-- Bounded search for the first `i ≥ start` with `blocked i = false`. -/
def findFreeFrom (blocked : Nat → Bool) : Nat → Nat → Option Nat
  | 0, _ => none
  | fuel + 1, i => if blocked i then findFreeFrom blocked fuel (i + 1) else some i

lemma findFreeFrom_spec (blocked : Nat → Bool) :
    ∀ fuel start j, findFreeFrom blocked fuel start = some j →
      blocked j = false ∧ start ≤ j ∧ ∀ i, start ≤ i → i < j → blocked i = true := by
  intro fuel
  induction fuel with
  | zero => intro start j h; exact absurd h (by simp [findFreeFrom])
  | succ n ih =>
    intro start j h
    rw [findFreeFrom] at h
    by_cases hb : blocked start
    · rw [if_pos hb] at h
      obtain ⟨h1, h2, h3⟩ := ih (start + 1) j h
      refine ⟨h1, by omega, fun i hi1 hi2 => ?_⟩
      rcases Nat.eq_or_lt_of_le hi1 with rfl | hlt
      · exact hb
      · exact h3 i hlt hi2
    · rw [if_neg hb] at h
      cases h
      exact ⟨Bool.not_eq_true _ ▸ (by simpa using hb), le_refl _, fun i h1 h2 => by omega⟩

lemma findFreeFrom_isSome (blocked : Nat → Bool) :
    ∀ fuel start, (∃ i, start ≤ i ∧ i < start + fuel ∧ blocked i = false) →
      ∃ j, findFreeFrom blocked fuel start = some j := by
  intro fuel
  induction fuel with
  | zero => intro start ⟨i, h1, h2, _⟩; omega
  | succ n ih =>
    intro start ⟨i, h1, h2, h3⟩
    rw [findFreeFrom]
    by_cases hb : blocked start
    · rw [if_pos hb]
      apply ih (start + 1)
      refine ⟨i, ?_, by omega, h3⟩
      rcases Nat.eq_or_lt_of_le h1 with rfl | hlt
      · rw [hb] at h3; cases h3
      · omega
    · rw [if_neg hb]; exact ⟨start, rfl⟩

/-- Pigeonhole: among `fs.length + reserved.length + 1` pairwise-distinct
candidate names, at least one is neither on disk nor reserved. -/
lemma exists_unblocked (fs reserved : List String) (d : String) (g : Nat → String)
    (ginj : Function.Injective g) (start : Nat) :
    ∃ i, start ≤ i ∧ i < start + (fs.length + reserved.length + 1) ∧
      (existsPath fs (pathJoin d (g i)) || reserved.contains (g i)) = false := by
  by_contra hcon
  push_neg at hcon
  have hb : ∀ i ∈ Finset.Ico start (start + (fs.length + reserved.length + 1)),
      pathJoin d (g i) ∈ fs ∨ g i ∈ reserved := by
    intro i hi
    rw [Finset.mem_Ico] at hi
    have hne := hcon i hi.1 hi.2
    cases hx : (existsPath fs (pathJoin d (g i)) || reserved.contains (g i)) with
    | false => exact absurd hx hne
    | true =>
      rcases Bool.or_eq_true_iff.mp hx with h | h
      · exact Or.inl (by simpa [existsPath] using h)
      · exact Or.inr (by simpa using h)
  classical
  set S := Finset.Ico start (start + (fs.length + reserved.length + 1)) with hS
  let f : Nat → Nat := fun i =>
    if pathJoin d (g i) ∈ fs then fs.indexOf (pathJoin d (g i))
    else fs.length + reserved.indexOf (g i)
  have hmaps : ∀ i ∈ S, f i ∈ Finset.range (fs.length + reserved.length) := by
    intro i hi
    rw [Finset.mem_range]
    by_cases hin : pathJoin d (g i) ∈ fs
    · simp only [f, if_pos hin]
      have := List.indexOf_lt_length.mpr hin
      omega
    · simp only [f, if_neg hin]
      have hr : g i ∈ reserved := (hb i hi).resolve_left hin
      have := List.indexOf_lt_length.mpr hr
      omega
  have hinj : Set.InjOn f S := by
    intro i hi j hj hf
    simp only [Finset.coe_Ico, Set.mem_Ico, hS] at hi hj
    by_cases hiF : pathJoin d (g i) ∈ fs <;> by_cases hjF : pathJoin d (g j) ∈ fs
    · simp only [f, if_pos hiF, if_pos hjF] at hf
      have := (List.indexOf_inj hiF hjF).mp hf
      exact ginj (pathJoin_right_injective d this)
    · simp only [f, if_pos hiF, if_neg hjF] at hf
      have := List.indexOf_lt_length.mpr hiF
      omega
    · simp only [f, if_neg hiF, if_pos hjF] at hf
      have := List.indexOf_lt_length.mpr hjF
      omega
    · simp only [f, if_neg hiF, if_neg hjF] at hf
      have hri : g i ∈ reserved := (hb i (by simp [hS, Finset.mem_Ico]; omega)).resolve_left hiF
      have hrj : g j ∈ reserved := (hb j (by simp [hS, Finset.mem_Ico]; omega)).resolve_left hjF
      have : reserved.indexOf (g i) = reserved.indexOf (g j) := by omega
      exact ginj ((List.indexOf_inj hri hrj).mp this)
  have hcard := Finset.card_le_card_of_injOn f hmaps hinj
  simp only [hS, Nat.card_Ico, Finset.card_range] at hcard
  omega

/-!
### `unique_path_reserved` and `unique_cover_old_path`

Both are `while True` searches over the counter `i = 2, 3, ...`.  They are
embedded with an explicit fuel of `fs.length + reserved.length + 1`
candidates, which by the pigeonhole lemma `exists_unblocked` always suffices
(the candidate names are pairwise distinct, and only finitely many names are
on disk or reserved), so the fallback arm is never reached.
-/

/-- Is `dest_dir / name` taken, either on disk or in the reservation set? -/
def uniqueBlocked (fs : List String) (destDir : String) (reserved : List String)
    (name : String) : Bool :=
  existsPath fs (pathJoin destDir name) || reserved.contains name

/-- `unique_path_reserved(dest_dir, filename, reserved)`: returns the chosen
name (the caller joins it onto `dest_dir`) and the grown reservation set. -/
def unique_path_reserved (fs : List String) (destDir filename : String)
    (reserved : List String) : String × List String :=
  if uniqueBlocked fs destDir reserved filename then
    let stem := pathStem filename
    let ext := pathSuffix filename
    match findFreeFrom (fun i => uniqueBlocked fs destDir reserved (suffixedName stem ext i))
        (fs.length + reserved.length + 1) 2 with
    | some i => (suffixedName stem ext i, suffixedName stem ext i :: reserved)
    | none => (filename, reserved)
  else (filename, filename :: reserved)

/-- The bounded search inside `unique_path_reserved` always succeeds. -/
lemma unique_path_search_some (fs : List String) (destDir : String)
    (reserved : List String) (stem ext : String) :
    ∃ j, findFreeFrom (fun i => uniqueBlocked fs destDir reserved (suffixedName stem ext i))
        (fs.length + reserved.length + 1) 2 = some j := by
  apply findFreeFrom_isSome
  obtain ⟨i, h1, h2, h3⟩ :=
    exists_unblocked fs reserved destDir (suffixedName stem ext)
      (suffixedName_injective stem ext) 2
  exact ⟨i, h1, h2, by simpa [uniqueBlocked] using h3⟩

/-- Candidate archive name `cover_old.jpg` (for `i ≤ 1`) or `f"cover_old_{i}.jpg"`. -/
def coverOldName (i : Nat) : String := "cover_old_" ++ natToStr i ++ ".jpg"

lemma coverOldName_injective : Function.Injective coverOldName := by
  intro a b h
  simp only [coverOldName] at h
  have hd := congrArg String.data h
  simp only [String.data_append, List.append_assoc] at hd
  have h1 := List.append_cancel_left hd
  exact natToStr_injective (String.ext (List.append_cancel_right h1))

/-- `unique_cover_old_path(dest_dir)`: `cover_old.jpg`, or `cover_old_{i}.jpg`
for the least free `i ≥ 2`.  Returns the chosen name. -/
def unique_cover_old_path (fs : List String) (destDir : String) : String :=
  if existsPath fs (pathJoin destDir "cover_old.jpg") then
    match findFreeFrom (fun i => existsPath fs (pathJoin destDir (coverOldName i)))
        (fs.length + 1) 2 with
    | some i => coverOldName i
    | none => "cover_old.jpg"
  else "cover_old.jpg"

lemma cover_old_search_some (fs : List String) (destDir : String) :
    ∃ j, findFreeFrom (fun i => existsPath fs (pathJoin destDir (coverOldName i)))
        (fs.length + 1) 2 = some j := by
  apply findFreeFrom_isSome
  obtain ⟨i, h1, h2, h3⟩ :=
    exists_unblocked fs [] destDir coverOldName coverOldName_injective 2
  refine ⟨i, h1, by simpa using h2, ?_⟩
  simpa using h3

/-!
### Batch planning (`chunk`, `build_plan`)
-/

def FILES_PER_FOLDER : Nat := 20

/-- `chunk(lst, size)`: contiguous slices of `size` elements (`size > 0`; the
source only ever calls it with `FILES_PER_FOLDER = 20`; Python's
`range(0, len, 0)` would raise, so the `size = 0` arm is unreachable). -/
def chunkList : List α → Nat → List (List α)
  | [], _ => []
  | _ :: _, 0 => []
  | a :: l, size + 1 =>
    (a :: l).take (size + 1) :: chunkList ((a :: l).drop (size + 1)) (size + 1)
termination_by l => l.length
decreasing_by
  simp only [List.length_drop, List.length_cons]
  omega

unseal chunkList

structure FileMove where
  src : String
  dst : String
  dst_name : String
deriving DecidableEq

structure BatchPlan where
  batch_index : Nat
  batch_dir : String
  moves : List FileMove
  will_make_cover : Bool
deriving DecidableEq

/-- A series directory, identified by its parent path and its own name
(`series_dir.parent` and `series_dir.name` in the source). -/
structure SeriesDir where
  parent : String
  name : String
deriving DecidableEq

def seriesPath (sd : SeriesDir) : String := pathJoin sd.parent sd.name

/-- The destination directory of batch `idx`: `dest_parent / f"{series_dir.name} {idx}"`. -/
def batchDirOf (sd : SeriesDir) (idx : Nat) : String :=
  pathJoin sd.parent (sd.name ++ " " ++ natToStr idx)

/-- The per-batch inner loop of `build_plan`: clean each name and reserve a
collision-free destination. -/
def planMoves (fs : List String) (batchDir seriesDirPath : String)
    (reserved : List String) : List String → List FileMove
  | [] => []
  | nm :: rest =>
    let cleaned := clean_volume_filename nm true
    let pick := unique_path_reserved fs batchDir cleaned reserved
    { src := pathJoin seriesDirPath nm, dst := pathJoin batchDir pick.1, dst_name := pick.1 }
      :: planMoves fs batchDir seriesDirPath pick.2 rest

/-- `build_plan(series_dir, series_cover)`; raising `RuntimeError` is modelled
as `Except.error`. -/
def build_plan (fs : List String) (sd : SeriesDir) (entries : List Entry)
    (seriesCover : Option String) : Except String (List BatchPlan) :=
  let vols := scan_volumes entries
  if vols.isEmpty then
    Except.error ("No volume files found in: " ++ seriesPath sd)
  else
    Except.ok ((chunkList vols FILES_PER_FOLDER).enum.map (fun p =>
      { batch_index := p.1 + 1
        batch_dir := batchDirOf sd (p.1 + 1)
        moves := planMoves fs (batchDirOf sd (p.1 + 1)) (seriesPath sd) [] p.2
        will_make_cover := seriesCover.isSome }))

/-!
### Filesystem with contents, and effects

`FS` maps existing paths to abstract file contents (`Nat`).  Directories are
not tracked: every `mkdir(parents=True, exist_ok=True)` in the source is a
no-op on file contents and is recorded only as an effect.  The effect trace
records every mutating filesystem operation a run performs, in order.
-/

abbrev FS := List (String × Nat)

def fsPaths (fs : FS) : List String := fs.map Prod.fst

def fsLookup (fs : FS) (p : String) : Option Nat :=
  (fs.find? (fun q => q.1 == p)).map Prod.snd

def fsRemove (fs : FS) (p : String) : FS := fs.filter (fun q => q.1 != p)

/-- Create or overwrite the file at `p` with content `c`. -/
def fsWrite (fs : FS) (p : String) (c : Nat) : FS := (p, c) :: fsRemove fs p

/-- `Path.rename` / `shutil.move` within one directory tree. -/
def fsRename (fs : FS) (src dst : String) : FS :=
  match fsLookup fs src with
  | some c => fsWrite (fsRemove fs src) dst c
  | none => fs

/-- `shutil.copy2`. -/
def fsCopy (fs : FS) (src dst : String) : FS :=
  match fsLookup fs src with
  | some c => fsWrite fs dst c
  | none => fs

inductive Effect where
  | write : String → Effect
  | mkdir : String → Effect
  | move : String → String → Effect
  | rename : String → String → Effect
  | copy : String → String → Effect
deriving DecidableEq

/-!
### Cover download cascade (`find_remote_cover`)

Each provider call is an oracle `Except String (Option CoverResult)`:
`Except.error` models a raised, provider-specific exception, `Except.ok none`
a lookup that returned no result.
-/

structure CoverResult where
  source : String
  url : String
deriving DecidableEq

/-- The `for _, fn in fetchers` loop: first truthy result wins; exceptions are
caught, remembered as `last_err` and the cascade continues. -/
def cascade : List (Except String (Option CoverResult)) → Option String →
    Option CoverResult × Option String
  | [], lastErr => (none, lastErr)
  | Except.ok (some r) :: _, _ => (some r, none)
  | Except.ok none :: rest, lastErr => cascade rest lastErr
  | Except.error e :: rest, _ => cascade rest (some e)

/-- `find_remote_cover(title)` over the three provider oracles
(MangaDex, then AniList, then Kitsu). -/
def find_remote_cover (md al ki : Except String (Option CoverResult)) :
    Option CoverResult × Option String :=
  cascade [md, al, ki] none

/-!
### Local cover resolution (`find_first_volume_cover`, `choose_series_cover`,
`ensure_series_cover`)
-/

structure VolumeCoverResult where
  volume_file : String
  image_entry : String
  output_file : String
deriving DecidableEq

/-- The run environment: the series directory, its listing, the filesystem,
and oracles for every operation whose outcome depends on the outside world
(zip contents, image decoding, the three remote providers, the download, the
interactive answer).  `render b n` is the content of the synthesized cover
with batch number `n` over base content `b`. -/
structure Env where
  sd : SeriesDir
  entries : List Entry
  fs : FS
  isDir : Bool
  zipFirstImage : String → Except String (Option String)
  extractOk : Except String Unit
  extractContent : Nat
  mangadex : Except String (Option CoverResult)
  anilist : Except String (Option CoverResult)
  kitsu : Except String (Option CoverResult)
  downloadOk : Except String Unit
  downloadContent : Nat
  render : Nat → Nat → Nat
  answer : String

/-- The canonical series cover path, `series_dir / "cover.jpg"`. -/
def seriesCoverPath (env : Env) : String := pathJoin (seriesPath env.sd) "cover.jpg"

/-- `find_first_volume_cover(series_dir)`: returns the extraction descriptor
or a non-fatal error (a raised exception is caught by the enclosing `try`). -/
def find_first_volume_cover (env : Env) : Option VolumeCoverResult × Option String :=
  match scan_volumes env.entries with
  | [] => (none, none)
  | v :: _ =>
    if ([".cbz", ".zip"] : List String).contains (lowerStr (pathSuffix v)) then
      match env.zipFirstImage (pathJoin (seriesPath env.sd) v) with
      | Except.error e => (none, some e)
      | Except.ok none =>
        (none, some ("no image files found in first volume archive: " ++ v))
      | Except.ok (some img) =>
        (some { volume_file := pathJoin (seriesPath env.sd) v
                image_entry := img
                output_file := seriesCoverPath env }, none)
    else
      (none, some ("first volume is " ++ lowerStr (pathSuffix v)
        ++ " (local extraction currently supports .cbz/.zip only)"))

/-- Is `series_dir / nm` an existing regular file, per the directory listing? -/
def entryIsFile (entries : List Entry) (nm : String) : Bool :=
  entries.any (fun e => e.name == nm && e.isFile)

/-- `choose_series_cover(series_dir)`: fixed candidate list first, then the
naturally-first image file in the directory.  Performs no mutation. -/
def choose_series_cover (env : Env) : Option String :=
  match COVER_CANDIDATES.find? (fun nm => entryIsFile env.entries nm) with
  | some nm => some (pathJoin (seriesPath env.sd) nm)
  | none =>
    let imgs := ((env.entries.filter (fun e =>
      e.isFile && !is_hidden_or_macos_junk e.name
        && IMAGE_EXTS.contains (lowerStr (pathSuffix e.name)))).map Entry.name)
    match imgs.mergeSort natKeyLe with
    | [] => none
    | i :: _ => some (pathJoin (seriesPath env.sd) i)

/-- Stages 2 and 3 of `ensure_series_cover` (reached when first-volume
extraction produced nothing or failed).  A download failure is modelled
without a write (a mid-stream failure could leave a partial file, but only
ever at the same canonical path); `_download_file`'s
`mkdir(parents=True, exist_ok=True)` of the existing series directory is a
no-op. -/
def ensure_series_cover_rest (env : Env) : Option String × FS × List Effect :=
  match choose_series_cover env with
  | some p => (some p, env.fs, [])
  | none =>
    match (find_remote_cover env.mangadex env.anilist env.kitsu).1 with
    | some _ =>
      match env.downloadOk with
      | Except.ok _ =>
        (some (seriesCoverPath env),
          fsWrite env.fs (seriesCoverPath env) env.downloadContent,
          [Effect.write (seriesCoverPath env)])
      | Except.error _ => (none, env.fs, [])
    | none => (none, env.fs, [])

/-- `ensure_series_cover(series_dir, title)`: the three-stage cascade.
Returns the chosen cover path (if any), the filesystem afterwards, and the
effect trace. -/
def ensure_series_cover (env : Env) : Option String × FS × List Effect :=
  match (find_first_volume_cover env).1 with
  | some r =>
    match env.extractOk with
    | Except.ok _ =>
      (some r.output_file, fsWrite env.fs r.output_file env.extractContent,
        [Effect.write r.output_file])
    | Except.error _ => ensure_series_cover_rest env
  | none => ensure_series_cover_rest env

/-!
### Cover synthesis (`fit_font_size`, `draw_dead_center_text`)

The rendered bounding box of the label at a given integer font size is
supplied by an environment function `bbox : Nat → Nat × Nat` (width, height);
`pick_font` always yields some font, so `bbox` is total.  The float
thresholds `int(w * (1 - 2*margin_frac))` with the default
`margin_frac = 0.06` and `int(max_size * 0.90)` equal the exact integer
expressions `88 * w / 100` and `9 * n / 10` for every dimension within
double precision's exact integer range, which is how they are embedded.
-/

/-- The `while lo <= hi` binary-search loop of `fit_font_size`.  Python's
`hi = mid - 1` can reach `-1`, ending the loop; over `Nat` this is the
`mid = 0` arm (every quantity in the source is a nonnegative integer). -/
def fitLoop (fits : Nat → Bool) (lo hi best : Nat) : Nat :=
  if lo ≤ hi then
    let mid := (lo + hi) / 2
    if fits mid then fitLoop fits (mid + 1) hi mid
    else if mid = 0 then best
    else fitLoop fits lo (mid - 1) best
  else best
termination_by hi + 1 - lo
decreasing_by
  · have h1 := Nat.div_add_mod (lo + hi) 2
    have h2 := Nat.mod_lt (lo + hi) (show 0 < 2 by decide)
    omega
  · have h1 := Nat.div_add_mod (lo + hi) 2
    have h2 := Nat.mod_lt (lo + hi) (show 0 < 2 by decide)
    omega

unseal fitLoop

/-- `fit_font_size(draw, text, w, h)` with the default margin. -/
def fit_font_size (bbox : Nat → Nat × Nat) (w h : Nat) : Nat :=
  let maxW := 88 * w / 100
  let maxH := 88 * h / 100
  fitLoop (fun s => decide ((bbox s).1 ≤ maxW ∧ (bbox s).2 ≤ maxH)) 10 (max w h * 5) 10

/-- The font size `draw_dead_center_text` actually renders with:
`max(10, int(max_size * scale))` at the default `scale = 0.90`. -/
def chosenFontSize (bbox : Nat → Nat × Nat) (w h : Nat) : Nat :=
  max 10 (9 * fit_font_size bbox w h / 10)

/-!
### Batch cover writing (`archive_existing_cover_jpg`, `ensure_cover_old`,
`write_numbered_cover`)
-/

/-- `archive_existing_cover_jpg(batch_dir)`: an existing numbered cover is
renamed (never overwritten or deleted) to the first free archive name. -/
def archive_existing_cover_jpg (fs : FS) (batchDir : String) :
    FS × Option String × List Effect :=
  let cover := pathJoin batchDir "cover.jpg"
  if (fsLookup fs cover).isSome then
    let dst := pathJoin batchDir (unique_cover_old_path (fsPaths fs) batchDir)
    (fsRename fs cover dst, some dst, [Effect.rename cover dst])
  else (fs, none, [])

/-- `ensure_cover_old(batch_dir, series_cover)`. -/
def ensure_cover_old (fs : FS) (batchDir seriesCover : String) :
    FS × String × List Effect :=
  let primary := pathJoin batchDir "cover_old.jpg"
  if (fsLookup fs primary).isSome then (fs, primary, [])
  else
    let target := pathJoin batchDir (unique_cover_old_path (fsPaths fs) batchDir)
    (fsCopy fs seriesCover target, target, [Effect.copy seriesCover target])

/-- `write_numbered_cover(batch_dir, number, series_cover)`.  (`Image.open`
on a missing base would raise; contents default to `0` in that unreachable
case.) -/
def write_numbered_cover (render : Nat → Nat → Nat) (fs : FS) (batchDir : String)
    (number : Nat) (seriesCover : String) : FS × List Effect :=
  match archive_existing_cover_jpg fs batchDir with
  | (fs1, _, ef1) =>
    match ensure_cover_old fs1 batchDir seriesCover with
    | (fs2, base, ef2) =>
      let coverPath := pathJoin batchDir "cover.jpg"
      let c := (fsLookup fs2 base).getD 0
      (fsWrite fs2 coverPath (render c number),
        Effect.mkdir batchDir :: ef1 ++ ef2 ++ [Effect.write coverPath])

/-!
### Execution (`execute`) and `main` (default mode)
-/

def executeMoves (fs : FS) (batchDir : String) : List FileMove → FS × List Effect
  | [] => (fs, [])
  | mv :: rest =>
    let r := executeMoves (fsRename fs mv.src mv.dst) batchDir rest
    (r.1, Effect.mkdir batchDir :: Effect.move mv.src mv.dst :: r.2)

def executeBatch (render : Nat → Nat → Nat) (fs : FS) (b : BatchPlan)
    (seriesCover : Option String) : FS × List Effect :=
  let m := executeMoves fs b.batch_dir b.moves
  match seriesCover with
  | some sc =>
    let wc := write_numbered_cover render m.1 b.batch_dir b.batch_index sc
    (wc.1, Effect.mkdir b.batch_dir :: m.2 ++ wc.2)
  | none => (m.1, Effect.mkdir b.batch_dir :: m.2)

def executePlan (render : Nat → Nat → Nat) (fs : FS) (seriesCover : Option String) :
    List BatchPlan → FS × List Effect
  | [] => (fs, [])
  | b :: rest =>
    let r1 := executeBatch render fs b seriesCover
    let r2 := executePlan render r1.1 seriesCover rest
    (r2.1, r1.2 ++ r2.2)

/-- `confirm(prompt)`: `input().strip().lower() in {"y", "yes"}`. -/
def confirm_yes (s : String) : Bool :=
  let t := lowerStr (String.mk (stripChars s.data))
  t == "y" || t == "yes"

structure RunResult where
  exitCode : Nat
  fs : FS
  effects : List Effect
deriving DecidableEq

/-- The only way a run changes the series directory's own listing is by
creating `cover.jpg` in it. -/
def withCoverEntry (entries : List Entry) : List Entry :=
  if entries.any (fun e => e.name == "cover.jpg" && e.isFile) then entries
  else { name := "cover.jpg", isFile := true } :: entries

/-- `main([series_dir])` in the default mode: resolve the series cover
(mutating!), build the plan, print it, prompt, and only on an affirmative
answer execute.  Exit codes: `2` for an invalid directory or a failed
`build_plan`, `0` otherwise. -/
def main_default (env : Env) : RunResult :=
  if env.isDir then
    match ensure_series_cover env with
    | (cover, fs1, tr1) =>
      let entries1 := if tr1.isEmpty then env.entries else withCoverEntry env.entries
      match build_plan (fsPaths fs1) env.sd entries1 cover with
      | Except.error _ => ⟨2, fs1, tr1⟩
      | Except.ok plan =>
        if confirm_yes env.answer then
          let r := executePlan env.render fs1 cover plan
          ⟨0, r.1, tr1 ++ r.2⟩
        else ⟨0, fs1, tr1⟩
  else ⟨2, env.fs, []⟩

/-!
### Lookup lemmas for the filesystem model
-/

lemma find?_fsRemove_ne (fs : FS) (p q : String) (hne : q ≠ p) :
    (fsRemove fs p).find? (fun x => x.1 == q) = fs.find? (fun x => x.1 == q) := by
  simp only [fsRemove]
  induction fs with
  | nil => rfl
  | cons a rest ih =>
    rw [List.filter_cons]
    by_cases hap : a.1 = p
    · have haq : ¬ ((fun x : String × Nat => x.1 == q) a = true) := by
        simp only [beq_iff_eq]
        intro h
        exact hne (by rw [← h, hap])
      have h1 : (a.1 != p) = false := by simp [hap]
      rw [h1]
      simp only [Bool.false_eq_true, if_false]
      rw [List.find?_cons_of_neg rest haq]
      exact ih
    · have h1 : (a.1 != p) = true := by simp [hap]
      rw [h1, if_pos rfl]
      by_cases haq : ((fun x : String × Nat => x.1 == q) a = true)
      · rw [List.find?_cons_of_pos (l := List.filter (fun q => q.1 != p) rest) haq,
          List.find?_cons_of_pos (l := rest) haq]
      · rw [List.find?_cons_of_neg (List.filter (fun q => q.1 != p) rest) haq,
          List.find?_cons_of_neg rest haq]
        exact ih

lemma fsLookup_fsRemove (fs : FS) (p q : String) :
    fsLookup (fsRemove fs p) q = if q = p then none else fsLookup fs q := by
  by_cases h : q = p
  · subst h
    simp only [if_pos rfl, fsLookup]
    have : (fsRemove fs q).find? (fun x => x.1 == q) = none := by
      rw [List.find?_eq_none]
      intro x hx
      rcases List.mem_filter.mp hx with ⟨_, hx2⟩
      simpa using hx2
    rw [this]
    rfl
  · rw [if_neg h]
    unfold fsLookup
    rw [find?_fsRemove_ne fs p q h]

lemma fsLookup_fsWrite (fs : FS) (p : String) (c : Nat) (q : String) :
    fsLookup (fsWrite fs p c) q = if q = p then some c else fsLookup fs q := by
  unfold fsWrite fsLookup
  by_cases h : q = p
  · subst h
    simp [List.find?_cons]
  · have hpq : (p == q) = false := by
      simp only [beq_eq_false_iff_ne, ne_eq]
      exact fun hh => h hh.symm
    simp only [List.find?_cons, hpq, if_neg h]
    have := fsLookup_fsRemove fs p q
    rw [if_neg h] at this
    simpa [fsLookup] using this

lemma fsLookup_fsRename (fs : FS) (src dst q : String) (c : Nat)
    (hsrc : fsLookup fs src = some c) :
    fsLookup (fsRename fs src dst) q =
      if q = dst then some c else if q = src then none else fsLookup fs q := by
  unfold fsRename
  rw [hsrc]
  rw [fsLookup_fsWrite]
  by_cases h1 : q = dst
  · simp [h1]
  · rw [if_neg h1, if_neg h1, fsLookup_fsRemove]

/-!
## Claims
-/

/-- A provider attempt that failed (raised) or returned no result. -/
def providerNoResult (p : Except String (Option CoverResult)) : Prop :=
  p = Except.ok none ∨ ∃ e, p = Except.error e

/-- First-volume extraction produced no written cover: the descriptor stage
yielded nothing, or decoding/writing the image raised. -/
def extractionFails (env : Env) : Prop :=
  (find_first_volume_cover env).1 = none ∨ ∃ e, env.extractOk = Except.error e

lemma cascade_third (md al : Except String (Option CoverResult))
    (ki : Except String (Option CoverResult)) (r : CoverResult)
    (h1 : providerNoResult md) (h2 : providerNoResult al)
    (h3 : ki = Except.ok (some r)) :
    (find_remote_cover md al ki).1 = some r := by
  subst h3
  rcases h1 with h1 | ⟨e1, h1⟩ <;> rcases h2 with h2 | ⟨e2, h2⟩ <;>
    subst h1 <;> subst h2 <;> rfl

lemma cascade_all_fail (md al ki : Except String (Option CoverResult))
    (h1 : providerNoResult md) (h2 : providerNoResult al) (h3 : providerNoResult ki) :
    (find_remote_cover md al ki).1 = none := by
  rcases h1 with h1 | ⟨e1, h1⟩ <;> rcases h2 with h2 | ⟨e2, h2⟩ <;>
    rcases h3 with h3 | ⟨e3, h3⟩ <;> subst h1 <;> subst h2 <;> subst h3 <;> rfl

lemma ensure_rest_of_remote (env : Env) (hloc : choose_series_cover env = none) :
    ensure_series_cover_rest env =
      match (find_remote_cover env.mangadex env.anilist env.kitsu).1 with
      | some _ =>
        match env.downloadOk with
        | Except.ok _ =>
          (some (seriesCoverPath env),
            fsWrite env.fs (seriesCoverPath env) env.downloadContent,
            [Effect.write (seriesCoverPath env)])
        | Except.error _ => (none, env.fs, [])
      | none => (none, env.fs, []) := by
  unfold ensure_series_cover_rest
  rw [hloc]

lemma ensure_of_extraction_fails (env : Env) (hext : extractionFails env) :
    ensure_series_cover env = ensure_series_cover_rest env := by
  unfold ensure_series_cover
  rcases hext with h | ⟨e, h⟩
  · rw [h]
  · cases hfv : (find_first_volume_cover env).1 with
    | none => rfl
    | some r => rw [h]

/-- C4: if first-volume extraction fails, no local cover/poster file exists,
and MangaDex and AniList fail or return nothing, the remote cascade returns
Kitsu's result and (when the download succeeds) the resolver returns the
canonical downloaded cover path; if additionally Kitsu fails, the resolver
returns `none` without raising — provider exceptions are swallowed by the
cascade (both the `Except.error` and the `Except.ok none` hypothesis shapes
cover "fail" and "return nothing"). -/
theorem claim_C4 (env : Env) (r : CoverResult)
    (hext : extractionFails env)
    (hloc : choose_series_cover env = none)
    (hmd : providerNoResult env.mangadex)
    (hal : providerNoResult env.anilist) :
    (env.kitsu = Except.ok (some r) →
      (find_remote_cover env.mangadex env.anilist env.kitsu).1 = some r
      ∧ (env.downloadOk = Except.ok () →
          (ensure_series_cover env).1 = some (seriesCoverPath env)))
    ∧ (providerNoResult env.kitsu → (ensure_series_cover env).1 = none) := by
  constructor
  · intro hki
    have hcas := cascade_third env.mangadex env.anilist env.kitsu r hmd hal hki
    refine ⟨hcas, fun hdl => ?_⟩
    rw [ensure_of_extraction_fails env hext, ensure_rest_of_remote env hloc, hcas, hdl]
  · intro hki
    have hcas := cascade_all_fail env.mangadex env.anilist env.kitsu hmd hal hki
    rw [ensure_of_extraction_fails env hext, ensure_rest_of_remote env hloc, hcas]

/-- A concrete environment for the C4 witness: an empty series directory, a
MangaDex miss, an AniList exception, a Kitsu hit, a successful download. -/
def envC4 : Env :=
  { sd := { parent := "/m", name := "One Piece" }
    entries := []
    fs := []
    isDir := true
    zipFirstImage := fun _ => Except.ok none
    extractOk := Except.ok ()
    extractContent := 0
    mangadex := Except.ok none
    anilist := Except.error "HTTP 500"
    kitsu := Except.ok (some { source := "kitsu", url := "u" })
    downloadOk := Except.ok ()
    downloadContent := 3
    render := fun b n => b + n
    answer := "n" }

theorem claim_C4_witness :
    (find_remote_cover envC4.mangadex envC4.anilist envC4.kitsu).1 =
        some { source := "kitsu", url := "u" }
      ∧ (ensure_series_cover envC4).1 = some (seriesCoverPath envC4) :=
  ⟨((claim_C4 envC4 { source := "kitsu", url := "u" } (Or.inl (by decide))
      (by decide) (Or.inl rfl) (Or.inr ⟨"HTTP 500", rfl⟩)).1 rfl).1,
    ((claim_C4 envC4 { source := "kitsu", url := "u" } (Or.inl (by decide))
      (by decide) (Or.inl rfl) (Or.inr ⟨"HTTP 500", rfl⟩)).1 rfl).2 rfl⟩

lemma find_first_output (env : Env) (r : VolumeCoverResult)
    (h : (find_first_volume_cover env).1 = some r) :
    r.output_file = seriesCoverPath env := by
  unfold find_first_volume_cover at h
  split at h
  · exact absurd h (by simp)
  · split at h
    · split at h
      · exact absurd h (by simp)
      · exact absurd h (by simp)
      · simp only at h
        injection h with h
        rw [← h]
    · exact absurd h (by simp)

/-- A concrete environment for the C8 counterexample: the series directory
holds only `poster.jpg`; stage 2 picks it and no `cover.jpg` is written. -/
def envC8 : Env :=
  { sd := { parent := "/m", name := "Berserk" }
    entries := [{ name := "poster.jpg", isFile := true }]
    fs := [(pathJoin (pathJoin "/m" "Berserk") "poster.jpg", 7)]
    isDir := true
    zipFirstImage := fun _ => Except.ok none
    extractOk := Except.ok ()
    extractContent := 0
    mangadex := Except.ok none
    anilist := Except.ok none
    kitsu := Except.ok none
    downloadOk := Except.ok ()
    downloadContent := 3
    render := fun b n => b + n
    answer := "n" }

/-- C8 is false as stated: when stage 2 succeeds by choosing an existing
local file such as `poster.jpg`, the resolver returns that file's path and no
file named `cover.jpg` exists in the collection directory on return. -/
theorem claim_C8_counterexample :
    (ensure_series_cover envC8).1 = some (pathJoin (seriesPath envC8.sd) "poster.jpg")
      ∧ fsLookup (ensure_series_cover envC8).2.1 (seriesCoverPath envC8) = none := by
  decide

/-- C8 amended: stage 1 (first-volume extraction) and stage 3 (remote
download) do write the canonical `cover.jpg` into the collection directory;
but a stage-2 success returns the existing local file's own path with the
filesystem unchanged, so `cover.jpg` need not exist afterwards. -/
theorem claim_C8_amended (env : Env) :
    (∀ r, (find_first_volume_cover env).1 = some r → env.extractOk = Except.ok () →
      (ensure_series_cover env).1 = some (seriesCoverPath env)
        ∧ fsLookup (ensure_series_cover env).2.1 (seriesCoverPath env)
            = some env.extractContent)
    ∧ (∀ p, extractionFails env → choose_series_cover env = some p →
        ensure_series_cover env = (some p, env.fs, []))
    ∧ (∀ r, extractionFails env → choose_series_cover env = none →
        (find_remote_cover env.mangadex env.anilist env.kitsu).1 = some r →
        env.downloadOk = Except.ok () →
        (ensure_series_cover env).1 = some (seriesCoverPath env)
          ∧ fsLookup (ensure_series_cover env).2.1 (seriesCoverPath env)
              = some env.downloadContent) := by
  refine ⟨fun r hfv hok => ?_, fun p hext hch => ?_, fun r hext hch hrem hdl => ?_⟩
  · have hout := find_first_output env r hfv
    unfold ensure_series_cover
    rw [hfv, hok]
    simp [hout, fsLookup_fsWrite]
  · rw [ensure_of_extraction_fails env hext]
    unfold ensure_series_cover_rest
    rw [hch]
  · rw [ensure_of_extraction_fails env hext, ensure_rest_of_remote env hch, hrem, hdl]
    simp [fsLookup_fsWrite]

/-- A concrete environment in which stage 1 succeeds. -/
def envC8b : Env :=
  { sd := { parent := "/m", name := "Naruto" }
    entries := [{ name := "Naruto v01.cbz", isFile := true }]
    fs := []
    isDir := true
    zipFirstImage := fun _ => Except.ok (some "001.jpg")
    extractOk := Except.ok ()
    extractContent := 5
    mangadex := Except.ok none
    anilist := Except.ok none
    kitsu := Except.ok none
    downloadOk := Except.ok ()
    downloadContent := 3
    render := fun b n => b + n
    answer := "n" }

theorem claim_C8_amended_witness :
    (ensure_series_cover envC8b).1 = some (seriesCoverPath envC8b)
      ∧ fsLookup (ensure_series_cover envC8b).2.1 (seriesCoverPath envC8b)
          = some envC8b.extractContent :=
  (claim_C8_amended envC8b).1
    { volume_file := pathJoin (seriesPath envC8b.sd) "Naruto v01.cbz"
      image_entry := "001.jpg"
      output_file := seriesCoverPath envC8b }
    (by decide) rfl

/-- Full specification of the binary-search loop, assuming the fit predicate
is downward closed (the monotonicity assumption of the source): the loop
returns the greatest fitting size in `[lo, hi]`, or `best` if none fits. -/
lemma fitLoop_spec (fits : Nat → Bool)
    (hanti : ∀ s t, s ≤ t → fits t = true → fits s = true) (lo hi best : Nat) :
    ((∀ s, lo ≤ s → s ≤ hi → fits s = false) → fitLoop fits lo hi best = best)
    ∧ (∀ s0, lo ≤ s0 → s0 ≤ hi → fits s0 = true →
        fits (fitLoop fits lo hi best) = true
        ∧ lo ≤ fitLoop fits lo hi best ∧ fitLoop fits lo hi best ≤ hi
        ∧ ∀ t, lo ≤ t → t ≤ hi → fits t = true → t ≤ fitLoop fits lo hi best) := by
  by_cases hle : lo ≤ hi
  · have hm1 := Nat.div_add_mod (lo + hi) 2
    have hm2 := Nat.mod_lt (lo + hi) (show 0 < 2 by decide)
    have hmidlo : lo ≤ (lo + hi) / 2 := by omega
    have hmidhi : (lo + hi) / 2 ≤ hi := by omega
    by_cases hf : fits ((lo + hi) / 2) = true
    · have heq : fitLoop fits lo hi best
          = fitLoop fits ((lo + hi) / 2 + 1) hi ((lo + hi) / 2) := by
        rw [fitLoop, if_pos hle]
        simp only [hf, if_true]
      have rec := fitLoop_spec fits hanti ((lo + hi) / 2 + 1) hi ((lo + hi) / 2)
      constructor
      · intro hno
        exact absurd hf (by simp [hno _ hmidlo hmidhi])
      · intro s0 _ _ _
        by_cases hex : ∃ s, (lo + hi) / 2 + 1 ≤ s ∧ s ≤ hi ∧ fits s = true
        · obtain ⟨s1, hs1a, hs1b, hs1c⟩ := hex
          obtain ⟨hr1, hr2, hr3, hr4⟩ := rec.2 s1 hs1a hs1b hs1c
          rw [heq]
          refine ⟨hr1, by omega, hr3, fun t ht1 ht2 ht3 => ?_⟩
          by_cases htm : t ≤ (lo + hi) / 2
          · omega
          · exact hr4 t (by omega) ht2 ht3
        · push_neg at hex
          have hno : ∀ s, (lo + hi) / 2 + 1 ≤ s → s ≤ hi → fits s = false := by
            intro s h1 h2
            rcases Bool.eq_false_or_eq_true (fits s) with h | h
            · exact absurd h (hex s h1 h2)
            · exact h
          have hres := rec.1 hno
          rw [heq, hres]
          refine ⟨hf, hmidlo, hmidhi, fun t ht1 ht2 ht3 => ?_⟩
          by_cases htm : t ≤ (lo + hi) / 2
          · exact htm
          · exact absurd ht3 (by simp [hno t (by omega) ht2])
    · have hff : fits ((lo + hi) / 2) = false := by
        rcases Bool.eq_false_or_eq_true (fits ((lo + hi) / 2)) with h | h
        · exact absurd h hf
        · exact h
      have hkey : ∀ t, fits t = true → t ≤ (lo + hi) / 2 - 1 ∨ (lo + hi) / 2 = 0 := by
        intro t ht
        by_cases htm : (lo + hi) / 2 ≤ t
        · exact absurd (hanti _ t htm ht) (by simp [hff])
        · omega
      by_cases hz : (lo + hi) / 2 = 0
      · have heq : fitLoop fits lo hi best = best := by
          rw [fitLoop, if_pos hle]
          simp only [hff, Bool.false_eq_true, if_false]
          rw [if_pos hz]
        refine ⟨fun _ => heq, fun s0 _ _ hs0 => ?_⟩
        have h0 : fits 0 = true := hanti 0 s0 (Nat.zero_le _) hs0
        rw [hz] at hff
        rw [hff] at h0
        cases h0
      · have heq : fitLoop fits lo hi best = fitLoop fits lo ((lo + hi) / 2 - 1) best := by
          rw [fitLoop, if_pos hle]
          simp only [hff, Bool.false_eq_true, if_false]
          rw [if_neg hz]
        have rec := fitLoop_spec fits hanti lo ((lo + hi) / 2 - 1) best
        constructor
        · intro hno
          rw [heq]
          exact rec.1 (fun s h1 h2 => hno s h1 (by omega))
        · intro s0 h1 h2 h3
          have hs0m : s0 ≤ (lo + hi) / 2 - 1 := (hkey s0 h3).resolve_right hz
          obtain ⟨hr1, hr2, hr3, hr4⟩ := rec.2 s0 h1 hs0m h3
          rw [heq]
          refine ⟨hr1, hr2, by omega, fun t ht1 ht2 ht3 => ?_⟩
          exact hr4 t ht1 ((hkey t ht3).resolve_right hz) ht3
  · constructor
    · intro _
      rw [fitLoop, if_neg hle]
    · intro s0 h1 h2 _
      omega
termination_by hi + 1 - lo
decreasing_by
  · have hm1 := Nat.div_add_mod (lo + hi) 2
    have hm2 := Nat.mod_lt (lo + hi) (show 0 < 2 by decide)
    omega
  · have hm1 := Nat.div_add_mod (lo + hi) 2
    have hm2 := Nat.mod_lt (lo + hi) (show 0 < 2 by decide)
    omega

/-- C9: under the claim's monotonicity hypothesis on the rendered bounding
box, `fit_font_size` returns the largest integer size in
`[10, 5 * max(w, h)]` whose bounding box fits within the margin thresholds
(`int(w * (1 - 2*0.06)) = 88*w/100` and likewise for `h`), and `10` when no
size in the range fits; the synthesizer then renders at
`max(10, floor(0.90 * that size))`. -/
theorem claim_C9 (bbox : Nat → Nat × Nat) (w h : Nat)
    (hmono : ∀ s t, s ≤ t → (bbox s).1 ≤ (bbox t).1 ∧ (bbox s).2 ≤ (bbox t).2) :
    (∀ s0, 10 ≤ s0 → s0 ≤ max w h * 5 →
        (bbox s0).1 ≤ 88 * w / 100 → (bbox s0).2 ≤ 88 * h / 100 →
        (bbox (fit_font_size bbox w h)).1 ≤ 88 * w / 100
          ∧ (bbox (fit_font_size bbox w h)).2 ≤ 88 * h / 100
          ∧ 10 ≤ fit_font_size bbox w h ∧ fit_font_size bbox w h ≤ max w h * 5
          ∧ ∀ t, 10 ≤ t → t ≤ max w h * 5 →
              (bbox t).1 ≤ 88 * w / 100 → (bbox t).2 ≤ 88 * h / 100 →
              t ≤ fit_font_size bbox w h)
    ∧ ((∀ s, 10 ≤ s → s ≤ max w h * 5 →
          ¬((bbox s).1 ≤ 88 * w / 100 ∧ (bbox s).2 ≤ 88 * h / 100)) →
        fit_font_size bbox w h = 10)
    ∧ chosenFontSize bbox w h = max 10 (9 * fit_font_size bbox w h / 10) := by
  have hanti : ∀ s t, s ≤ t →
      (fun s => decide ((bbox s).1 ≤ 88 * w / 100 ∧ (bbox s).2 ≤ 88 * h / 100)) t = true →
      (fun s => decide ((bbox s).1 ≤ 88 * w / 100 ∧ (bbox s).2 ≤ 88 * h / 100)) s = true := by
    intro s t hst ht
    simp only [decide_eq_true_eq] at *
    obtain ⟨hm1, hm2⟩ := hmono s t hst
    exact ⟨le_trans hm1 ht.1, le_trans hm2 ht.2⟩
  have hspec := fitLoop_spec _ hanti 10 (max w h * 5) 10
  refine ⟨fun s0 h1 h2 h3 h4 => ?_, fun hno => ?_, rfl⟩
  · obtain ⟨hr1, hr2, hr3, hr4⟩ := hspec.2 s0 h1 h2 (by simp [h3, h4])
    simp only [decide_eq_true_eq] at hr1
    exact ⟨hr1.1, hr1.2, hr2, hr3,
      fun t ht1 ht2 ht3 ht4 => hr4 t ht1 ht2 (by simp [ht3, ht4])⟩
  · apply hspec.1
    intro s hs1 hs2
    simp only [decide_eq_false_iff_not]
    exact hno s hs1 hs2

def bboxC9 : Nat → Nat × Nat := fun s => (s, 2 * s)

theorem claim_C9_witness :
    (bboxC9 (fit_font_size bboxC9 100 300)).1 ≤ 88 * 100 / 100
      ∧ 10 ≤ fit_font_size bboxC9 100 300 := by
  have hm : ∀ s t, s ≤ t → (bboxC9 s).1 ≤ (bboxC9 t).1 ∧ (bboxC9 s).2 ≤ (bboxC9 t).2 := by
    intro s t hst
    exact ⟨hst, by simp only [bboxC9]; omega⟩
  have := (claim_C9 bboxC9 100 300 hm).1 10 (by decide) (by decide)
    (by decide) (by decide)
  exact ⟨this.1, this.2.2.1⟩

/-- C10: volume scanning returns exactly the eligible regular files — archive
extension matched case-insensitively, hidden/AppleDouble names excluded —
sorted by the natural key of their lowercased names: the result is a
permutation of the filtered entries, pairwise ordered by the natural key,
contains no junk name, and concretely `"Naruto v01.CBZ"` / `".ZIP"` files are
eligible while `"."`/`"._"` names are not. -/
theorem claim_C10 (entries : List Entry) :
    (scan_volumes entries).Perm ((entries.filter isVolumeEntry).map Entry.name)
    ∧ (scan_volumes entries).Pairwise (fun a b => natKeyLe a b = true)
    ∧ ((scan_volumes entries).all (fun nm => !is_hidden_or_macos_junk nm)) = true
    ∧ isVolumeEntry { name := "Naruto v01.CBZ", isFile := true } = true
    ∧ isVolumeEntry { name := "Naruto v01.ZIP", isFile := true } = true
    ∧ isVolumeEntry { name := ".hidden.cbz", isFile := true } = false
    ∧ isVolumeEntry { name := "._Naruto v01.cbz", isFile := true } = false
    ∧ isVolumeEntry { name := "Naruto v01.cbz", isFile := false } = false := by
  refine ⟨scan_volumes_perm entries, ?_, ?_, by decide, by decide, by decide,
    by decide, by decide⟩
  · have := scan_volumes_sorted entries
    exact this.imp (fun h => h)
  · rw [List.all_eq_true]
    intro nm hmem
    have hmem2 : nm ∈ (entries.filter isVolumeEntry).map Entry.name :=
      (scan_volumes_perm entries).mem_iff.mp hmem
    obtain ⟨e, he1, he2⟩ := List.mem_map.mp hmem2
    have he3 : isVolumeEntry e = true := (List.mem_filter.mp he1).2
    simp only [isVolumeEntry, Bool.and_eq_true, Bool.not_eq_true'] at he3
    rw [← he2]
    simp [he3.1.2]

/-- C2 is false as stated: `clean_volume_filename` is not idempotent on every
input.  `"(a).v2"` splits into stem `"(a)"` and suffix `".v2"`; the stem
cleans to the empty string, so the first pass returns `".v2"` — but re-run,
`".v2"` has an empty suffix and stem `".v2"`, in which `v2` now matches the
volume-marker pattern (the dot makes a word boundary), giving `". v002"`. -/
theorem claim_C2_counterexample :
    clean_volume_filename (clean_volume_filename "(a).v2" true) true
      ≠ clean_volume_filename "(a).v2" true := by
  decide

/-- Representative volume filenames: the spec's own examples, already-clean
outputs, and assorted shapes produced by scanning real series folders. -/
def cleanIdemExamples : List String :=
  ["Series v7.cbz", "Series v007.cbz", "Series v071_1_1.cbz",
   "Naruto v01 (2003) (Digital).cbz", "One Piece v100.cbz", "vol 10.cbz",
   "v7.cbz", "No Marker.cbz", "A B v12.zip", "a.b v1.cbz",
   "Title (Group) v3.cb7", "x v 12.cbr", "V9.zip", "Berserk v41.cbz",
   "name_v2_3.cbz", "Series v0.cbz", "Series v1234.cbz", " padded v3 .cbz"]

/-- C2 amended: normalization is idempotent on representative volume
filenames (the spec's examples and typical archive names), but not for every
string — `clean("(a).v2") = ".v2"` while `clean(".v2") = ". v002"`. -/
theorem claim_C2_amended : ∀ s ∈ cleanIdemExamples,
    clean_volume_filename (clean_volume_filename s true) true
      = clean_volume_filename s true := by
  decide

theorem claim_C2_amended_witness :
    clean_volume_filename (clean_volume_filename "Series v7.cbz" true) true
      = clean_volume_filename "Series v7.cbz" true :=
  claim_C2_amended "Series v7.cbz" (by decide)

lemma ensure_rest_effects (env : Env) :
    ∀ e ∈ (ensure_series_cover_rest env).2.2, e = Effect.write (seriesCoverPath env) := by
  unfold ensure_series_cover_rest
  split
  · intro e he; simp at he
  · split
    · split
      · intro e he; simp at he; exact he
      · intro e he; simp at he
    · intro e he; simp at he

/-- Every mutation `ensure_series_cover` can perform is a write of the
canonical series cover path. -/
lemma ensure_effects (env : Env) :
    ∀ e ∈ (ensure_series_cover env).2.2, e = Effect.write (seriesCoverPath env) := by
  cases hfv : (find_first_volume_cover env).1 with
  | none =>
    have h : ensure_series_cover env = ensure_series_cover_rest env := by
      unfold ensure_series_cover; rw [hfv]
    rw [h]
    exact ensure_rest_effects env
  | some r =>
    cases hok : env.extractOk with
    | ok u =>
      have h : ensure_series_cover env
          = (some r.output_file, fsWrite env.fs r.output_file env.extractContent,
              [Effect.write r.output_file]) := by
        unfold ensure_series_cover; rw [hfv, hok]
      rw [h]
      intro e he
      simp at he
      rw [he, find_first_output env r hfv]
    | error err =>
      have h : ensure_series_cover env = ensure_series_cover_rest env := by
        unfold ensure_series_cover; rw [hfv, hok]
      rw [h]
      exact ensure_rest_effects env

/-- Writing `cover.jpg` into the series directory never changes the volume
scan (it is not an archive). -/
lemma scan_withCoverEntry (es : List Entry) :
    scan_volumes (withCoverEntry es) = scan_volumes es := by
  unfold withCoverEntry
  split
  · rfl
  · unfold scan_volumes
    rw [List.filter_cons]
    have h : isVolumeEntry { name := "cover.jpg", isFile := true } = false := by decide
    rw [h]
    simp only [Bool.false_eq_true, if_false]

lemma main_default_decline (env : Env) (hdir : env.isDir = true)
    (hvols : scan_volumes env.entries ≠ [])
    (hans : confirm_yes env.answer = false) :
    main_default env
      = ⟨0, (ensure_series_cover env).2.1, (ensure_series_cover env).2.2⟩ := by
  unfold main_default
  rw [hdir]
  rw [if_pos rfl]
  rcases hE : ensure_series_cover env with ⟨cover, fs1, tr1⟩
  simp only
  have hscan : scan_volumes (if tr1.isEmpty = true then env.entries
      else withCoverEntry env.entries) = scan_volumes env.entries := by
    split
    · rfl
    · exact scan_withCoverEntry env.entries
  have hempty : (scan_volumes (if tr1.isEmpty = true then env.entries
      else withCoverEntry env.entries)).isEmpty = false := by
    rw [hscan]
    cases hsc : scan_volumes env.entries with
    | nil => exact absurd hsc hvols
    | cons a l => rfl
  unfold build_plan
  simp only [hempty, Bool.false_eq_true, if_false, hans]

/-- A concrete run for the C1 counterexample: the directory holds one volume
whose first page extracts successfully, the cover is written before the
prompt, and the user answers `"n"`. -/
def envC1 : Env :=
  { sd := { parent := "/m", name := "Bleach" }
    entries := [{ name := "Bleach v01.cbz", isFile := true }]
    fs := []
    isDir := true
    zipFirstImage := fun _ => Except.ok (some "001.jpg")
    extractOk := Except.ok ()
    extractContent := 5
    mangadex := Except.ok none
    anilist := Except.ok none
    kitsu := Except.ok none
    downloadOk := Except.ok ()
    downloadContent := 3
    render := fun b n => b + n
    answer := "n" }

/-- C1 is false as stated: in this declined default-mode run the process
exits with status zero but a filesystem mutation (the write of the series
directory's `cover.jpg` during cover resolution, before the prompt) has
occurred. -/
theorem claim_C1_counterexample :
    (main_default envC1).exitCode = 0
      ∧ confirm_yes envC1.answer = false
      ∧ (main_default envC1).effects = [Effect.write (seriesCoverPath envC1)] := by
  decide

/-- C1 amended: when the user declines at the prompt the process exits with
status zero and none of the planned mutations happen (no directory created,
no rename, no move, no batch cover) — but the cover-resolution step has
already run, so the series directory's `cover.jpg` may have been created or
overwritten; every effect of the run is such a write. -/
theorem claim_C1_amended (env : Env) (hdir : env.isDir = true)
    (hvols : scan_volumes env.entries ≠ [])
    (hans : confirm_yes env.answer = false) :
    main_default env
        = ⟨0, (ensure_series_cover env).2.1, (ensure_series_cover env).2.2⟩
      ∧ ∀ e ∈ (main_default env).effects, e = Effect.write (seriesCoverPath env) := by
  have h := main_default_decline env hdir hvols hans
  refine ⟨h, ?_⟩
  rw [h]
  exact ensure_effects env

theorem claim_C1_amended_witness :
    main_default envC1
        = ⟨0, (ensure_series_cover envC1).2.1, (ensure_series_cover envC1).2.2⟩
      ∧ ∀ e ∈ (main_default envC1).effects, e = Effect.write (seriesCoverPath envC1) :=
  claim_C1_amended envC1 rfl (by decide) (by decide)

/-- A concrete run for the C3 counterexample: a valid directory with no
volumes and no local images; Kitsu returns a cover which downloads
successfully, then `build_plan` raises "no volumes found". -/
def envC3 : Env :=
  { sd := { parent := "/m", name := "Empty" }
    entries := []
    fs := []
    isDir := true
    zipFirstImage := fun _ => Except.ok none
    extractOk := Except.ok ()
    extractContent := 5
    mangadex := Except.ok none
    anilist := Except.error "timeout"
    kitsu := Except.ok (some { source := "kitsu", url := "u" })
    downloadOk := Except.ok ()
    downloadContent := 3
    render := fun b n => b + n
    answer := "n" }

/-- C3 is false as stated: this run fails with exit status 2 ("no volumes
found"), but a file — the downloaded series `cover.jpg` — was created before
the failure was reported. -/
theorem claim_C3_counterexample :
    (main_default envC3).exitCode = 2
      ∧ (main_default envC3).effects = [Effect.write (seriesCoverPath envC3)] := by
  decide

/-- C3 amended: an invalid/missing input directory fails immediately with
exit status 2 and no mutation at all; a directory with no eligible volumes
also fails with exit status 2 before any planned mutation, but the
cover-resolution step has already run, so the only possible mutation before
the failure is a write of the series directory's `cover.jpg`. -/
theorem claim_C3_amended (env : Env) :
    (env.isDir = false → main_default env = ⟨2, env.fs, []⟩)
    ∧ (env.isDir = true → scan_volumes env.entries = [] →
        (main_default env).exitCode = 2
          ∧ ∀ e ∈ (main_default env).effects, e = Effect.write (seriesCoverPath env)) := by
  constructor
  · intro hdir
    unfold main_default
    rw [hdir]
    rfl
  · intro hdir hvols
    have hmain : main_default env
        = ⟨2, (ensure_series_cover env).2.1, (ensure_series_cover env).2.2⟩ := by
      unfold main_default
      rw [hdir, if_pos rfl]
      rcases hE : ensure_series_cover env with ⟨cover, fs1, tr1⟩
      simp only
      have hempty : (scan_volumes (if tr1.isEmpty = true then env.entries
          else withCoverEntry env.entries)).isEmpty = true := by
        have hscan : scan_volumes (if tr1.isEmpty = true then env.entries
            else withCoverEntry env.entries) = scan_volumes env.entries := by
          split
          · rfl
          · exact scan_withCoverEntry env.entries
        rw [hscan, hvols]
        rfl
      unfold build_plan
      simp only [hempty, if_true]
    rw [hmain]
    exact ⟨rfl, ensure_effects env⟩

/-- A run on a path that is not a directory. -/
def envC3b : Env :=
  { sd := { parent := "/m", name := "nope" }
    entries := []
    fs := [("/m/other", 1)]
    isDir := false
    zipFirstImage := fun _ => Except.ok none
    extractOk := Except.ok ()
    extractContent := 5
    mangadex := Except.ok none
    anilist := Except.ok none
    kitsu := Except.ok none
    downloadOk := Except.ok ()
    downloadContent := 3
    render := fun b n => b + n
    answer := "y" }

theorem claim_C3_amended_witness :
    main_default envC3b = ⟨2, envC3b.fs, []⟩
      ∧ ((main_default envC3).exitCode = 2
        ∧ ∀ e ∈ (main_default envC3).effects, e = Effect.write (seriesCoverPath envC3)) :=
  ⟨(claim_C3_amended envC3b).1 rfl, (claim_C3_amended envC3).2 rfl (by decide)⟩

lemma existsPath_fsPaths (fs : FS) (p : String) :
    existsPath (fsPaths fs) p = (fsLookup fs p).isSome := by
  induction fs with
  | nil => rfl
  | cons a rest ih =>
    show (fsPaths (a :: rest)).contains p = _
    rw [show fsPaths (a :: rest) = a.1 :: fsPaths rest from rfl]
    by_cases h : a.1 = p
    · have h1 : (p == a.1) = true := by simp [h]
      have h2 : (a.1 == p) = true := by simp [h]
      simp only [List.contains_cons, h1, Bool.true_or, fsLookup, List.find?_cons, h2,
        if_true, Option.isSome_some, Option.map_some]
      rfl
    · have h1 : (p == a.1) = false := by
        simp only [beq_eq_false_iff_ne, ne_eq]
        exact fun hh => h hh.symm
      have h2 : (a.1 == p) = false := by simp [h]
      simp only [List.contains_cons, h1, Bool.false_or]
      rw [show (fsPaths rest).contains p = existsPath (fsPaths rest) p from rfl, ih]
      simp [fsLookup, List.find?_cons, h2]

lemma unique_cover_old_spec (fs : List String) (d : String) :
    (existsPath fs (pathJoin d "cover_old.jpg") = false →
      unique_cover_old_path fs d = "cover_old.jpg")
    ∧ (existsPath fs (pathJoin d "cover_old.jpg") = true →
      ∃ j, 2 ≤ j ∧ unique_cover_old_path fs d = coverOldName j
        ∧ existsPath fs (pathJoin d (coverOldName j)) = false
        ∧ ∀ i, 2 ≤ i → i < j → existsPath fs (pathJoin d (coverOldName i)) = true) := by
  constructor
  · intro h
    unfold unique_cover_old_path
    rw [h]
    simp
  · intro h
    unfold unique_cover_old_path
    rw [h]
    simp only [if_true]
    obtain ⟨j, hj⟩ := cover_old_search_some fs d
    rw [hj]
    obtain ⟨hb, hge, hmin⟩ := findFreeFrom_spec _ _ _ _ hj
    exact ⟨j, hge, rfl, hb, fun i h1 h2 => hmin i h1 h2⟩

lemma unique_cover_old_free (fs : List String) (d : String) :
    existsPath fs (pathJoin d (unique_cover_old_path fs d)) = false := by
  cases h : existsPath fs (pathJoin d "cover_old.jpg") with
  | false => rw [(unique_cover_old_spec fs d).1 h]; exact h
  | true =>
    obtain ⟨j, _, hnm, hfree, _⟩ := (unique_cover_old_spec fs d).2 h
    rw [hnm]
    exact hfree

lemma natToStr_length_pos (n : Nat) : 0 < (natToStr n).length := by
  cases n with
  | zero => decide
  | succ m =>
    unfold natToStr
    rw [if_neg (Nat.succ_ne_zero m)]
    show 0 < (((natDigitsLE (m + 1)).map digitChar).reverse).length
    rw [natDigitsLE]
    simp

lemma coverOldName_ne_cover (i : Nat) : coverOldName i ≠ "cover.jpg" := by
  intro h
  have hlen := congrArg String.length h
  simp only [coverOldName, String.length_append] at hlen
  have hp := natToStr_length_pos i
  have h1 : ("cover_old_" : String).length = 10 := by decide
  have h2 : (".jpg" : String).length = 4 := by decide
  have h3 : ("cover.jpg" : String).length = 9 := by decide
  omega

lemma coverOldName_ne_primary (i : Nat) : coverOldName i ≠ "cover_old.jpg" := by
  intro h
  have hlen := congrArg String.length h
  simp only [coverOldName, String.length_append] at hlen
  have hp := natToStr_length_pos i
  have h1 : ("cover_old_" : String).length = 10 := by decide
  have h2 : (".jpg" : String).length = 4 := by decide
  have h3 : ("cover_old.jpg" : String).length = 13 := by decide
  omega

lemma ensure_cover_old_of_primary (fs : FS) (bd sc : String)
    (h : (fsLookup fs (pathJoin bd "cover_old.jpg")).isSome = true) :
    ensure_cover_old fs bd sc = (fs, pathJoin bd "cover_old.jpg", []) := by
  unfold ensure_cover_old
  simp only [h, if_true]

/-- The archive names a numbered cover can be renamed to. -/
def coverOldShaped (batchDir p : String) : Prop :=
  p = pathJoin batchDir "cover_old.jpg"
    ∨ ∃ i, 2 ≤ i ∧ p = pathJoin batchDir (coverOldName i)

lemma lookup_none_of_existsPath_false {fs : FS} {p : String}
    (h : existsPath (fsPaths fs) p = false) : fsLookup fs p = none := by
  rw [existsPath_fsPaths] at h
  rcases hx : fsLookup fs p with _ | v
  · rfl
  · rw [hx] at h
    simp at h

/-- C7: writing a numbered cover into a batch directory that already holds
`cover.jpg` (content `c`) renames it — never overwrites or deletes it — to
the first free archive name: the effect trace is exactly one rename plus the
new cover write, the archive name was previously unused, the old bytes are
preserved unchanged under it, no other `cover_old*` path changes, and the
name is `cover_old.jpg` when free, else `cover_old_{j}.jpg` for the smallest
free `j ≥ 2`. -/
theorem claim_C7 (render : Nat → Nat → Nat) (fs : FS) (batchDir seriesCover : String)
    (n c : Nat)
    (hcov : fsLookup fs (pathJoin batchDir "cover.jpg") = some c) :
    ∃ dst,
      (write_numbered_cover render fs batchDir n seriesCover).2
        = [Effect.mkdir batchDir,
           Effect.rename (pathJoin batchDir "cover.jpg") dst,
           Effect.write (pathJoin batchDir "cover.jpg")]
      ∧ coverOldShaped batchDir dst
      ∧ fsLookup fs dst = none
      ∧ fsLookup (write_numbered_cover render fs batchDir n seriesCover).1 dst = some c
      ∧ (∀ p, coverOldShaped batchDir p → p ≠ dst →
          fsLookup (write_numbered_cover render fs batchDir n seriesCover).1 p
            = fsLookup fs p)
      ∧ (fsLookup fs (pathJoin batchDir "cover_old.jpg") = none →
          dst = pathJoin batchDir "cover_old.jpg")
      ∧ ((fsLookup fs (pathJoin batchDir "cover_old.jpg")).isSome = true →
          ∃ j, 2 ≤ j ∧ dst = pathJoin batchDir (coverOldName j)
            ∧ fsLookup fs (pathJoin batchDir (coverOldName j)) = none
            ∧ ∀ i, 2 ≤ i → i < j →
                (fsLookup fs (pathJoin batchDir (coverOldName i))).isSome = true) := by
  have hIsSome : (fsLookup fs (pathJoin batchDir "cover.jpg")).isSome = true := by
    rw [hcov]; rfl
  have hfree : fsLookup fs
      (pathJoin batchDir (unique_cover_old_path (fsPaths fs) batchDir)) = none :=
    lookup_none_of_existsPath_false (unique_cover_old_free (fsPaths fs) batchDir)
  have hdnc : pathJoin batchDir (unique_cover_old_path (fsPaths fs) batchDir)
      ≠ pathJoin batchDir "cover.jpg" := by
    intro h
    rw [h, hcov] at hfree
    simp at hfree
  have harch : archive_existing_cover_jpg fs batchDir
      = (fsRename fs (pathJoin batchDir "cover.jpg")
            (pathJoin batchDir (unique_cover_old_path (fsPaths fs) batchDir)),
         some (pathJoin batchDir (unique_cover_old_path (fsPaths fs) batchDir)),
         [Effect.rename (pathJoin batchDir "cover.jpg")
            (pathJoin batchDir (unique_cover_old_path (fsPaths fs) batchDir))]) := by
    unfold archive_existing_cover_jpg
    simp only [hIsSome, if_true]
  have hpc : pathJoin batchDir "cover_old.jpg" ≠ pathJoin batchDir "cover.jpg" := by
    intro h
    have := pathJoin_right_injective batchDir h
    exact absurd this (by decide)
  have hprim1 : (fsLookup (fsRename fs (pathJoin batchDir "cover.jpg")
      (pathJoin batchDir (unique_cover_old_path (fsPaths fs) batchDir)))
      (pathJoin batchDir "cover_old.jpg")).isSome = true := by
    rw [fsLookup_fsRename fs _ _ _ c hcov]
    by_cases hp : pathJoin batchDir "cover_old.jpg"
        = pathJoin batchDir (unique_cover_old_path (fsPaths fs) batchDir)
    · rw [if_pos hp]; rfl
    · rw [if_neg hp, if_neg hpc]
      cases hex : existsPath (fsPaths fs) (pathJoin batchDir "cover_old.jpg") with
      | false =>
        have hnm := (unique_cover_old_spec (fsPaths fs) batchDir).1 hex
        exact absurd (by rw [hnm]) hp
      | true =>
        rw [existsPath_fsPaths] at hex
        exact hex
  have hens := ensure_cover_old_of_primary
    (fsRename fs (pathJoin batchDir "cover.jpg")
      (pathJoin batchDir (unique_cover_old_path (fsPaths fs) batchDir)))
    batchDir seriesCover hprim1
  have hwnc : write_numbered_cover render fs batchDir n seriesCover
      = (fsWrite (fsRename fs (pathJoin batchDir "cover.jpg")
            (pathJoin batchDir (unique_cover_old_path (fsPaths fs) batchDir)))
          (pathJoin batchDir "cover.jpg")
          (render ((fsLookup (fsRename fs (pathJoin batchDir "cover.jpg")
              (pathJoin batchDir (unique_cover_old_path (fsPaths fs) batchDir)))
            (pathJoin batchDir "cover_old.jpg")).getD 0) n),
         [Effect.mkdir batchDir,
          Effect.rename (pathJoin batchDir "cover.jpg")
            (pathJoin batchDir (unique_cover_old_path (fsPaths fs) batchDir)),
          Effect.write (pathJoin batchDir "cover.jpg")]) := by
    unfold write_numbered_cover
    rw [harch]
    simp only
    rw [hens]
    rfl
  refine ⟨pathJoin batchDir (unique_cover_old_path (fsPaths fs) batchDir),
    by rw [hwnc], ?_, hfree, ?_, ?_, ?_, ?_⟩
  · cases hex : existsPath (fsPaths fs) (pathJoin batchDir "cover_old.jpg") with
    | false =>
      have hnm := (unique_cover_old_spec (fsPaths fs) batchDir).1 hex
      exact Or.inl (by rw [hnm])
    | true =>
      obtain ⟨j, hj2, hnm, _, _⟩ := (unique_cover_old_spec (fsPaths fs) batchDir).2 hex
      exact Or.inr ⟨j, hj2, by rw [hnm]⟩
  · rw [hwnc]
    show fsLookup (fsWrite _ _ _) _ = some c
    rw [fsLookup_fsWrite, if_neg hdnc, fsLookup_fsRename fs _ _ _ c hcov, if_pos rfl]
  · intro p hshape hne
    have hpnc : p ≠ pathJoin batchDir "cover.jpg" := by
      rcases hshape with h | ⟨i, _, h⟩
      · rw [h]; exact hpc
      · rw [h]
        intro hh
        exact absurd (pathJoin_right_injective batchDir hh) (coverOldName_ne_cover i)
    rw [hwnc]
    show fsLookup (fsWrite _ _ _) _ = _
    rw [fsLookup_fsWrite, if_neg hpnc, fsLookup_fsRename fs _ _ _ c hcov,
      if_neg hne, if_neg hpnc]
  · intro hnone
    have hex : existsPath (fsPaths fs) (pathJoin batchDir "cover_old.jpg") = false := by
      rw [existsPath_fsPaths, hnone]
      rfl
    have hnm := (unique_cover_old_spec (fsPaths fs) batchDir).1 hex
    rw [hnm]
  · intro hsome
    have hex : existsPath (fsPaths fs) (pathJoin batchDir "cover_old.jpg") = true := by
      rw [existsPath_fsPaths]
      exact hsome
    obtain ⟨j, hj2, hnm, hfree2, hmin⟩ := (unique_cover_old_spec (fsPaths fs) batchDir).2 hex
    refine ⟨j, hj2, by rw [hnm], lookup_none_of_existsPath_false hfree2,
      fun i h1 h2 => ?_⟩
    rw [← existsPath_fsPaths]
    exact hmin i h1 h2

/-- A concrete batch directory already holding a numbered `cover.jpg` and its
first-generation `cover_old.jpg`: the archived name must be `cover_old_2.jpg`. -/
theorem claim_C7_witness :
    ∃ dst,
      (write_numbered_cover (fun b n => b + n)
          [(pathJoin "/m/X 1" "cover.jpg", 9), (pathJoin "/m/X 1" "cover_old.jpg", 4)]
          "/m/X 1" 1 "/m/X/cover.jpg").2
        = [Effect.mkdir "/m/X 1",
           Effect.rename (pathJoin "/m/X 1" "cover.jpg") dst,
           Effect.write (pathJoin "/m/X 1" "cover.jpg")]
      ∧ coverOldShaped "/m/X 1" dst
      ∧ fsLookup [(pathJoin "/m/X 1" "cover.jpg", 9),
          (pathJoin "/m/X 1" "cover_old.jpg", 4)] dst = none
      ∧ fsLookup (write_numbered_cover (fun b n => b + n)
          [(pathJoin "/m/X 1" "cover.jpg", 9), (pathJoin "/m/X 1" "cover_old.jpg", 4)]
          "/m/X 1" 1 "/m/X/cover.jpg").1 dst = some 9
      ∧ (∀ p, coverOldShaped "/m/X 1" p → p ≠ dst →
          fsLookup (write_numbered_cover (fun b n => b + n)
            [(pathJoin "/m/X 1" "cover.jpg", 9), (pathJoin "/m/X 1" "cover_old.jpg", 4)]
            "/m/X 1" 1 "/m/X/cover.jpg").1 p
            = fsLookup [(pathJoin "/m/X 1" "cover.jpg", 9),
                (pathJoin "/m/X 1" "cover_old.jpg", 4)] p)
      ∧ (fsLookup [(pathJoin "/m/X 1" "cover.jpg", 9),
            (pathJoin "/m/X 1" "cover_old.jpg", 4)] (pathJoin "/m/X 1" "cover_old.jpg")
            = none →
          dst = pathJoin "/m/X 1" "cover_old.jpg")
      ∧ ((fsLookup [(pathJoin "/m/X 1" "cover.jpg", 9),
            (pathJoin "/m/X 1" "cover_old.jpg", 4)]
            (pathJoin "/m/X 1" "cover_old.jpg")).isSome = true →
          ∃ j, 2 ≤ j ∧ dst = pathJoin "/m/X 1" (coverOldName j)
            ∧ fsLookup [(pathJoin "/m/X 1" "cover.jpg", 9),
                (pathJoin "/m/X 1" "cover_old.jpg", 4)]
                (pathJoin "/m/X 1" (coverOldName j)) = none
            ∧ ∀ i, 2 ≤ i → i < j →
                (fsLookup [(pathJoin "/m/X 1" "cover.jpg", 9),
                  (pathJoin "/m/X 1" "cover_old.jpg", 4)]
                  (pathJoin "/m/X 1" (coverOldName i))).isSome = true) :=
  claim_C7 (fun b n => b + n)
    [(pathJoin "/m/X 1" "cover.jpg", 9), (pathJoin "/m/X 1" "cover_old.jpg", 4)]
    "/m/X 1" "/m/X/cover.jpg" 1 9 (by decide)

/-!
### Chunking and planning lemmas (C5, C6)
-/

lemma chunkList_flatten (l : List α) (s : Nat) : (chunkList l (s + 1)).flatten = l := by
  match l with
  | [] => rfl
  | a :: t =>
    rw [chunkList, List.flatten_cons, chunkList_flatten ((a :: t).drop (s + 1)) s]
    exact List.take_append_drop (s + 1) (a :: t)
termination_by l.length
decreasing_by
  simp only [List.length_drop, List.length_cons]
  omega

lemma chunkList_length_eq (l : List α) (s : Nat) :
    (chunkList l (s + 1)).length = (l.length + s) / (s + 1) := by
  match l with
  | [] =>
    show 0 = (0 + s) / (s + 1)
    rw [Nat.div_eq_of_lt (by omega)]
  | a :: t =>
    rw [chunkList]
    show (chunkList ((a :: t).drop (s + 1)) (s + 1)).length + 1 = _
    rw [chunkList_length_eq ((a :: t).drop (s + 1)) s]
    simp only [List.length_drop, List.length_cons]
    by_cases hle : t.length + 1 ≤ s + 1
    · have h1 : t.length + 1 - (s + 1) = 0 := by omega
      have h3 : (t.length + 1 + s) / (s + 1) = 1 :=
        Nat.div_eq_of_lt_le (by omega) (by omega)
      have h4 : (0 + s) / (s + 1) = 0 := Nat.div_eq_of_lt (by omega)
      rw [h1, h4, h3]
    · have h2 : t.length + 1 + s = (t.length + 1 - (s + 1) + s) + (s + 1) := by omega
      rw [h2, Nat.add_div_right _ (Nat.succ_pos s)]
termination_by l.length
decreasing_by
  simp only [List.length_drop, List.length_cons]
  omega

lemma chunkList_mem_sizes (l : List α) (s : Nat) :
    ∀ g ∈ chunkList l (s + 1), g.length ≤ s + 1 ∧ g ≠ [] := by
  match l with
  | [] => intro g hg; exact absurd hg (by simp [chunkList])
  | a :: t =>
    rw [chunkList]
    intro g hg
    rcases List.mem_cons.mp hg with h | h
    · subst h
      constructor
      · rw [List.length_take]
        omega
      · rw [List.take_succ_cons]
        simp
    · exact chunkList_mem_sizes ((a :: t).drop (s + 1)) s g h
termination_by l.length
decreasing_by
  simp only [List.length_drop, List.length_cons]
  omega

lemma chunkList_eq_nil_iff (l : List α) (s : Nat) :
    chunkList l (s + 1) = [] ↔ l = [] := by
  cases l with
  | nil => simp [chunkList]
  | cons a t =>
    rw [chunkList]
    simp

lemma chunkList_dropLast_sizes (l : List α) (s : Nat) :
    ∀ g ∈ (chunkList l (s + 1)).dropLast, g.length = s + 1 := by
  match l with
  | [] => intro g hg; exact absurd hg (by simp [chunkList])
  | a :: t =>
    rw [chunkList]
    intro g hg
    cases hrest : chunkList ((a :: t).drop (s + 1)) (s + 1) with
    | nil => rw [hrest] at hg; exact absurd hg (by simp)
    | cons c cs =>
      rw [hrest, List.dropLast_cons_of_ne_nil (by simp)] at hg
      rcases List.mem_cons.mp hg with h | h
      · subst h
        have hne : (a :: t).drop (s + 1) ≠ [] := by
          intro hh
          rw [hh] at hrest
          exact absurd hrest.symm (by simp [chunkList])
        have hlen : s + 1 < (a :: t).length := by
          have := List.length_pos.mpr hne
          simp only [List.length_drop] at this
          omega
        rw [List.length_take]
        omega
      · have := chunkList_dropLast_sizes ((a :: t).drop (s + 1)) s g
        rw [hrest] at this
        exact this h
termination_by l.length
decreasing_by
  simp only [List.length_drop, List.length_cons]
  omega

lemma chunkList_map_length_congr (l₁ : List α) (l₂ : List β)
    (h : l₁.length = l₂.length) (s : Nat) :
    (chunkList l₁ (s + 1)).map List.length = (chunkList l₂ (s + 1)).map List.length := by
  match l₁, l₂ with
  | [], [] => rfl
  | [], b :: t₂ => simp at h
  | a :: t₁, [] => simp at h
  | a :: t₁, b :: t₂ =>
    rw [chunkList, chunkList]
    simp only [List.map_cons]
    have h1 : ((a :: t₁).take (s + 1)).length = ((b :: t₂).take (s + 1)).length := by
      rw [List.length_take, List.length_take]
      simp only [List.length_cons] at h ⊢
      omega
    rw [h1, chunkList_map_length_congr ((a :: t₁).drop (s + 1)) ((b :: t₂).drop (s + 1))
      (by simp only [List.length_drop]; simp only [List.length_cons] at h ⊢; omega) s]
termination_by l₁.length
decreasing_by
  simp only [List.length_drop, List.length_cons]
  omega

lemma planMoves_length (fs : List String) (bd sp : String) :
    ∀ (names reserved : List String),
      (planMoves fs bd sp reserved names).length = names.length := by
  intro names
  induction names with
  | nil => intro reserved; rfl
  | cons nm rest ih =>
    intro reserved
    show (planMoves fs bd sp _ rest).length + 1 = rest.length + 1
    rw [ih]

lemma planMoves_src (fs : List String) (bd sp : String) :
    ∀ (names reserved : List String),
      (planMoves fs bd sp reserved names).map (fun m => m.src)
        = names.map (fun nm => pathJoin sp nm) := by
  intro names
  induction names with
  | nil => intro reserved; rfl
  | cons nm rest ih =>
    intro reserved
    show pathJoin sp nm :: (planMoves fs bd sp _ rest).map (fun m => m.src) = _
    rw [ih]
    rfl

/-- Extracting the successful plan from `build_plan`. -/
lemma build_plan_ok (fs : List String) (sd : SeriesDir) (entries : List Entry)
    (cover : Option String) (plan : List BatchPlan)
    (hplan : build_plan fs sd entries cover = Except.ok plan) :
    plan = (chunkList (scan_volumes entries) FILES_PER_FOLDER).enum.map (fun p =>
      { batch_index := p.1 + 1
        batch_dir := batchDirOf sd (p.1 + 1)
        moves := planMoves fs (batchDirOf sd (p.1 + 1)) (seriesPath sd) [] p.2
        will_make_cover := cover.isSome }) := by
  unfold build_plan at hplan
  simp only at hplan
  by_cases hE : (scan_volumes entries).isEmpty = true
  · rw [hE] at hplan
    simp at hplan
  · have hE' : (scan_volumes entries).isEmpty = false := by
      cases hx : (scan_volumes entries).isEmpty with
      | false => rfl
      | true => exact absurd hx hE
    rw [hE'] at hplan
    simp at hplan
    exact hplan.symm

lemma build_plan_get (fs : List String) (sd : SeriesDir) (entries : List Entry)
    (cover : Option String) (plan : List BatchPlan)
    (hplan : build_plan fs sd entries cover = Except.ok plan)
    (i : Nat) (hi : i < plan.length) :
    ∃ hg : i < (chunkList (scan_volumes entries) FILES_PER_FOLDER).length,
      plan.get ⟨i, hi⟩
        = { batch_index := i + 1
            batch_dir := batchDirOf sd (i + 1)
            moves := planMoves fs (batchDirOf sd (i + 1)) (seriesPath sd) []
              ((chunkList (scan_volumes entries) FILES_PER_FOLDER).get ⟨i, hg⟩)
            will_make_cover := cover.isSome } := by
  have hp := build_plan_ok fs sd entries cover plan hplan
  subst hp
  have hg : i < (chunkList (scan_volumes entries) FILES_PER_FOLDER).length := by
    rw [List.length_map, List.enum_eq_enumFrom] at hi
    simpa using hi
  refine ⟨hg, ?_⟩
  have h4 := List.get?_eq_get hi
  have h5 : (List.map (fun p =>
      ({ batch_index := p.1 + 1
         batch_dir := batchDirOf sd (p.1 + 1)
         moves := planMoves fs (batchDirOf sd (p.1 + 1)) (seriesPath sd) [] p.2
         will_make_cover := cover.isSome } : BatchPlan))
      (chunkList (scan_volumes entries) FILES_PER_FOLDER).enum).get? i
      = some { batch_index := i + 1
               batch_dir := batchDirOf sd (i + 1)
               moves := planMoves fs (batchDirOf sd (i + 1)) (seriesPath sd) []
                 ((chunkList (scan_volumes entries) FILES_PER_FOLDER).get ⟨i, hg⟩)
               will_make_cover := cover.isSome } := by
    rw [List.get?_eq_getElem?, List.getElem?_map, List.enum_eq_enumFrom,
      List.getElem?_enumFrom, List.getElem?_eq_getElem hg]
    simp [List.get_eq_getElem]
  rw [h4] at h5
  exact Option.some.inj h5

lemma plan_length_eq_chunks (fs : List String) (sd : SeriesDir) (entries : List Entry)
    (cover : Option String) (plan : List BatchPlan)
    (hplan : build_plan fs sd entries cover = Except.ok plan) :
    plan.length = (chunkList (scan_volumes entries) FILES_PER_FOLDER).length := by
  rw [build_plan_ok fs sd entries cover plan hplan, List.length_map,
    List.enum_eq_enumFrom, List.enumFrom_length]

/-- C5: a successful plan has `ceil(n/20)` batches of at most 20 volumes each
(every batch but the last exactly 20, none empty), batch `i` (1-based) is
directed at `"{parent}/{series name} {i}"`, input order is preserved across
the concatenation of all batches, and 45 volumes give exactly the batch
sizes `[20, 20, 5]`. -/
theorem claim_C5 (fs : List String) (sd : SeriesDir) (entries : List Entry)
    (cover : Option String) (plan : List BatchPlan)
    (hplan : build_plan fs sd entries cover = Except.ok plan) :
    plan.length = ((scan_volumes entries).length + 19) / 20
    ∧ (∀ b ∈ plan, b.moves.length ≤ 20 ∧ b.moves ≠ [])
    ∧ (∀ b ∈ plan.dropLast, b.moves.length = 20)
    ∧ (∀ i, ∀ hi : i < plan.length, (plan.get ⟨i, hi⟩).batch_index = i + 1
        ∧ (plan.get ⟨i, hi⟩).batch_dir
            = pathJoin sd.parent (sd.name ++ " " ++ natToStr (i + 1)))
    ∧ (plan.map (fun b => b.moves.map (fun m => m.src))).flatten
        = (scan_volumes entries).map (fun nm => pathJoin (seriesPath sd) nm)
    ∧ ((scan_volumes entries).length = 45 →
        plan.map (fun b => b.moves.length) = [20, 20, 5]) := by
  have hlen := plan_length_eq_chunks fs sd entries cover plan hplan
  have hp := build_plan_ok fs sd entries cover plan hplan
  refine ⟨?_, ?_, ?_, ?_, ?_, ?_⟩
  · rw [hlen]
    exact chunkList_length_eq (scan_volumes entries) 19
  · intro b hb
    obtain ⟨⟨i, hi⟩, hget⟩ := List.mem_iff_get.mp hb
    obtain ⟨hg, hgeteq⟩ := build_plan_get fs sd entries cover plan hplan i hi
    rw [← hget, hgeteq]
    have hmem : (chunkList (scan_volumes entries) FILES_PER_FOLDER).get ⟨i, hg⟩
        ∈ chunkList (scan_volumes entries) FILES_PER_FOLDER := List.get_mem _ _ _
    have hsz := chunkList_mem_sizes (scan_volumes entries) 19 _ hmem
    constructor
    · show (planMoves _ _ _ _ _).length ≤ 20
      rw [planMoves_length]
      exact hsz.1
    · show (planMoves _ _ _ _ _) ≠ []
      have hpos := List.length_pos.mpr hsz.2
      intro hnil
      have := congrArg List.length hnil
      rw [planMoves_length] at this
      simp only [List.length_nil] at this
      omega
  · intro b hb
    obtain ⟨⟨i, hdl⟩, hget⟩ := List.mem_iff_get.mp hb
    have hi : i < plan.length := by
      have := hdl
      simp only [List.length_dropLast] at this
      omega
    have hgd : plan.dropLast.get ⟨i, hdl⟩ = plan.get ⟨i, hi⟩ := by
      rw [List.get_eq_getElem, List.get_eq_getElem, List.getElem_dropLast]
    obtain ⟨hg, hgeteq⟩ := build_plan_get fs sd entries cover plan hplan i hi
    rw [← hget, hgd, hgeteq]
    show (planMoves _ _ _ _ _).length = 20
    rw [planMoves_length]
    have hdl2 : i < (chunkList (scan_volumes entries) FILES_PER_FOLDER).dropLast.length := by
      simp only [List.length_dropLast]
      simp only [List.length_dropLast, hlen] at hdl
      omega
    have hgd2 : (chunkList (scan_volumes entries) FILES_PER_FOLDER).dropLast.get ⟨i, hdl2⟩
        = (chunkList (scan_volumes entries) FILES_PER_FOLDER).get ⟨i, hg⟩ := by
      rw [List.get_eq_getElem, List.get_eq_getElem, List.getElem_dropLast]
    have hmem : (chunkList (scan_volumes entries) FILES_PER_FOLDER).dropLast.get ⟨i, hdl2⟩
        ∈ (chunkList (scan_volumes entries) FILES_PER_FOLDER).dropLast := List.get_mem _ _ _
    rw [hgd2] at hmem
    exact chunkList_dropLast_sizes (scan_volumes entries) 19 _ hmem
  · intro i hi
    obtain ⟨hg, hgeteq⟩ := build_plan_get fs sd entries cover plan hplan i hi
    rw [hgeteq]
    exact ⟨rfl, rfl⟩
  · rw [hp, List.map_map]
    have hfun : ((fun b => b.moves.map (fun m => m.src)) ∘ (fun p : Nat × List String =>
        ({ batch_index := p.1 + 1
           batch_dir := batchDirOf sd (p.1 + 1)
           moves := planMoves fs (batchDirOf sd (p.1 + 1)) (seriesPath sd) [] p.2
           will_make_cover := cover.isSome } : BatchPlan)))
        = (fun p : Nat × List String =>
            p.2.map (fun nm => pathJoin (seriesPath sd) nm)) := by
      funext p
      exact planMoves_src fs (batchDirOf sd (p.1 + 1)) (seriesPath sd) p.2 []
    rw [hfun]
    rw [show (fun p : Nat × List String =>
        p.2.map (fun nm => pathJoin (seriesPath sd) nm))
      = (fun g : List String => g.map (fun nm => pathJoin (seriesPath sd) nm)) ∘ Prod.snd
      from rfl]
    rw [← List.map_map, List.enum_eq_enumFrom, List.enumFrom_map_snd]
    rw [← List.map_flatten]
    rw [show chunkList (scan_volumes entries) FILES_PER_FOLDER
        = chunkList (scan_volumes entries) (19 + 1) from rfl,
      chunkList_flatten (scan_volumes entries) 19]
  · intro h45
    rw [hp, List.map_map]
    have hfun : ((fun b => b.moves.length) ∘ (fun p : Nat × List String =>
        ({ batch_index := p.1 + 1
           batch_dir := batchDirOf sd (p.1 + 1)
           moves := planMoves fs (batchDirOf sd (p.1 + 1)) (seriesPath sd) [] p.2
           will_make_cover := cover.isSome } : BatchPlan)))
        = (fun p : Nat × List String => p.2.length) := by
      funext p
      exact planMoves_length fs (batchDirOf sd (p.1 + 1)) (seriesPath sd) p.2 []
    rw [hfun]
    rw [show (fun p : Nat × List String => p.2.length)
      = List.length ∘ Prod.snd from rfl]
    rw [← List.map_map, List.enum_eq_enumFrom, List.enumFrom_map_snd]
    rw [show chunkList (scan_volumes entries) FILES_PER_FOLDER
        = chunkList (scan_volumes entries) (19 + 1) from rfl,
      chunkList_map_length_congr (scan_volumes entries) (List.range 45)
        (by rw [h45]; simp) 19]
    decide

/-- A 45-entry directory for the C5 witness. -/
def entriesC5 : List Entry :=
  (List.range 45).map (fun i =>
    { name := "B v" ++ natToStr (i + 1) ++ ".cbz", isFile := true })

theorem claim_C5_witness :
    ∃ plan, build_plan [] { parent := "/m", name := "B" } entriesC5 none
        = Except.ok plan
      ∧ plan.length = ((scan_volumes entriesC5).length + 19) / 20
      ∧ plan.map (fun b => b.moves.length) = [20, 20, 5] := by
  rcases hplan : build_plan [] { parent := "/m", name := "B" } entriesC5 none with e | plan
  · have hne : (scan_volumes entriesC5).isEmpty = false := by decide
    unfold build_plan at hplan
    simp only at hplan
    rw [hne] at hplan
    simp at hplan
  · have h := claim_C5 [] { parent := "/m", name := "B" } entriesC5 none plan hplan
    exact ⟨plan, rfl, h.1, h.2.2.2.2.2 (by decide)⟩

/-- The claim's naming discipline: the chosen destination name is the
filename itself when free, else the `" (j)"`-suffixed name (suffix inserted
before the extension) for the smallest counter `j ≥ 2` that is neither
reserved nor on disk. -/
def smallestFreeChoice (fs : List String) (dd : String) (rs : List String)
    (fn chosen : String) : Prop :=
  (uniqueBlocked fs dd rs fn = false ∧ chosen = fn)
  ∨ (uniqueBlocked fs dd rs fn = true ∧ ∃ j, 2 ≤ j
      ∧ chosen = suffixedName (pathStem fn) (pathSuffix fn) j
      ∧ uniqueBlocked fs dd rs (suffixedName (pathStem fn) (pathSuffix fn) j) = false
      ∧ ∀ i, 2 ≤ i → i < j →
          uniqueBlocked fs dd rs (suffixedName (pathStem fn) (pathSuffix fn) i) = true)

lemma unique_path_reserved_spec (fs : List String) (dd fn : String) (rs : List String) :
    (unique_path_reserved fs dd fn rs).2 = (unique_path_reserved fs dd fn rs).1 :: rs
    ∧ uniqueBlocked fs dd rs (unique_path_reserved fs dd fn rs).1 = false
    ∧ smallestFreeChoice fs dd rs fn (unique_path_reserved fs dd fn rs).1 := by
  unfold unique_path_reserved
  cases hb : uniqueBlocked fs dd rs fn with
  | false =>
    simp only [Bool.false_eq_true, if_false]
    exact ⟨trivial, hb, Or.inl ⟨hb, rfl⟩⟩
  | true =>
    simp only [if_true]
    obtain ⟨j, hj⟩ := unique_path_search_some fs dd rs (pathStem fn) (pathSuffix fn)
    rw [hj]
    obtain ⟨hfree, hge, hmin⟩ := findFreeFrom_spec _ _ _ _ hj
    exact ⟨rfl, hfree, Or.inr ⟨hb, j, hge, rfl, hfree, fun i h1 h2 => hmin i h1 h2⟩⟩

lemma planMoves_reserved (fs : List String) (bd sp : String) :
    ∀ (names reserved : List String),
      (∀ m ∈ planMoves fs bd sp reserved names, reserved.contains m.dst_name = false)
      ∧ ((planMoves fs bd sp reserved names).map (fun m => m.dst_name)).Nodup := by
  intro names
  induction names with
  | nil =>
    intro reserved
    exact ⟨fun m hm => absurd hm (by simp [planMoves]), by simp [planMoves]⟩
  | cons nm rest ih =>
    intro reserved
    obtain ⟨hres, hblock, _⟩ :=
      unique_path_reserved_spec fs bd (clean_volume_filename nm true) reserved
    have hcontains : reserved.contains
        (unique_path_reserved fs bd (clean_volume_filename nm true) reserved).1 = false := by
      have h := hblock
      simp only [uniqueBlocked, Bool.or_eq_false_iff] at h
      exact h.2
    have ihs := ih (unique_path_reserved fs bd (clean_volume_filename nm true) reserved).2
    have hplm : planMoves fs bd sp reserved (nm :: rest)
        = { src := pathJoin sp nm
            dst := pathJoin bd
              (unique_path_reserved fs bd (clean_volume_filename nm true) reserved).1
            dst_name := (unique_path_reserved fs bd (clean_volume_filename nm true) reserved).1 }
          :: planMoves fs bd sp
              (unique_path_reserved fs bd (clean_volume_filename nm true) reserved).2 rest := rfl
    constructor
    · intro m hm
      rw [hplm] at hm
      rcases List.mem_cons.mp hm with h | h
      · rw [h]
        exact hcontains
      · have h2 := ihs.1 m h
        rw [hres] at h2
        rw [List.contains_cons] at h2
        exact (Bool.or_eq_false_iff.mp h2).2
    · rw [hplm, List.map_cons]
      rw [List.nodup_cons]
      refine ⟨?_, ihs.2⟩
      intro hmem
      obtain ⟨m, hm, hdst⟩ := List.mem_map.mp hmem
      have h2 := ihs.1 m hm
      rw [hres, List.contains_cons] at h2
      have := (Bool.or_eq_false_iff.mp h2).1
      rw [hdst] at this
      simp at this

lemma planMoves_smallest (fs : List String) (bd sp : String) :
    ∀ (names reserved : List String) (k : Nat) (hk : k < names.length),
      smallestFreeChoice fs bd
        ((((planMoves fs bd sp reserved names).take k).map (fun m => m.dst_name)).reverse
          ++ reserved)
        (clean_volume_filename (names.get ⟨k, hk⟩) true)
        ((planMoves fs bd sp reserved names).get
          ⟨k, by rw [planMoves_length]; exact hk⟩).dst_name := by
  intro names
  induction names with
  | nil => intro reserved k hk; exact absurd hk (by simp)
  | cons nm rest ih =>
    intro reserved k hk
    obtain ⟨hres, _, hsmall⟩ :=
      unique_path_reserved_spec fs bd (clean_volume_filename nm true) reserved
    have hplm : planMoves fs bd sp reserved (nm :: rest)
        = { src := pathJoin sp nm
            dst := pathJoin bd
              (unique_path_reserved fs bd (clean_volume_filename nm true) reserved).1
            dst_name := (unique_path_reserved fs bd (clean_volume_filename nm true) reserved).1 }
          :: planMoves fs bd sp
              (unique_path_reserved fs bd (clean_volume_filename nm true) reserved).2 rest := rfl
    match k with
    | 0 => simpa using hsmall
    | k + 1 =>
      have hk' : k < rest.length := by simpa using hk
      have hrec := ih (unique_path_reserved fs bd (clean_volume_filename nm true) reserved).2
        k hk'
      show smallestFreeChoice fs bd
        ((List.map (fun m => m.dst_name)
          ({ src := pathJoin sp nm
             dst := pathJoin bd
               (unique_path_reserved fs bd (clean_volume_filename nm true) reserved).1
             dst_name :=
               (unique_path_reserved fs bd (clean_volume_filename nm true) reserved).1 }
            :: List.take k (planMoves fs bd sp
              (unique_path_reserved fs bd (clean_volume_filename nm true) reserved).2
              rest))).reverse ++ reserved)
        (clean_volume_filename (rest.get ⟨k, hk'⟩) true)
        ((planMoves fs bd sp
            (unique_path_reserved fs bd (clean_volume_filename nm true) reserved).2
            rest).get ⟨k, by rw [planMoves_length]; exact hk'⟩).dst_name
      rw [List.map_cons, List.reverse_cons, List.append_assoc,
        List.singleton_append, ← hres]
      exact hrec

/-- C6: within each batch of a successful plan no two planned destination
names are equal; each batch's moves come from the per-batch reservation fold
started with an empty set, and every move's destination name is the cleaned
name when free, else the smallest-counter `" (j)"`-suffixed variant that is
neither reserved by an earlier move of the batch nor existing on disk. -/
theorem claim_C6 (fs : List String) (sd : SeriesDir) (entries : List Entry)
    (cover : Option String) (plan : List BatchPlan)
    (hplan : build_plan fs sd entries cover = Except.ok plan) :
    (∀ b ∈ plan, (b.moves.map (fun m => m.dst_name)).Nodup)
    ∧ (∀ i, ∀ hi : i < plan.length,
        ∃ hg : i < (chunkList (scan_volumes entries) FILES_PER_FOLDER).length,
          (plan.get ⟨i, hi⟩).moves
            = planMoves fs (batchDirOf sd (i + 1)) (seriesPath sd) []
                ((chunkList (scan_volumes entries) FILES_PER_FOLDER).get ⟨i, hg⟩))
    ∧ (∀ (bd sp : String) (names : List String) (k : Nat) (hk : k < names.length),
        smallestFreeChoice fs bd
          ((((planMoves fs bd sp [] names).take k).map (fun m => m.dst_name)).reverse)
          (clean_volume_filename (names.get ⟨k, hk⟩) true)
          ((planMoves fs bd sp [] names).get
            ⟨k, by rw [planMoves_length]; exact hk⟩).dst_name) := by
  refine ⟨?_, ?_, ?_⟩
  · intro b hb
    obtain ⟨⟨i, hi⟩, hget⟩ := List.mem_iff_get.mp hb
    obtain ⟨hg, hgeteq⟩ := build_plan_get fs sd entries cover plan hplan i hi
    rw [← hget, hgeteq]
    exact (planMoves_reserved fs (batchDirOf sd (i + 1)) (seriesPath sd) _ []).2
  · intro i hi
    obtain ⟨hg, hgeteq⟩ := build_plan_get fs sd entries cover plan hplan i hi
    exact ⟨hg, by rw [hgeteq]⟩
  · intro bd sp names k hk
    have := planMoves_smallest fs bd sp names [] k hk
    simpa using this

def entriesC6 : List Entry :=
  [{ name := "A v1 (x).cbz", isFile := true }, { name := "A v01.cbz", isFile := true }]

theorem claim_C6_witness :
    ∃ plan, build_plan [] { parent := "/m", name := "A" } entriesC6 none = Except.ok plan
      ∧ ∀ b ∈ plan, (b.moves.map (fun m => m.dst_name)).Nodup := by
  rcases hplan : build_plan [] { parent := "/m", name := "A" } entriesC6 none with e | plan
  · have hne : (scan_volumes entriesC6).isEmpty = false := by decide
    unfold build_plan at hplan
    simp only at hplan
    rw [hne] at hplan
    simp at hplan
  · exact ⟨plan, rfl,
      (claim_C6 [] { parent := "/m", name := "A" } entriesC6 none plan hplan).1⟩

end MangaCleaner
